import Mathlib

/-!
Shallow embedding of the jerryscript memory pool manager
(`src/unnamed/part_000`, `mem-poolman.c`): per-size-class pool chains,
aggregate free-chunk counters, the chunk allocation / free / consolidation
paths, and the bootstrap pool for pool headers.

Pointers are modelled as natural-number addresses, and `size_t` counters as
`Nat`; the two decrement sites (`mem_FreeChunksNumber[chunkType]--` and the
consolidation subtraction) are reached only with the counter respectively at
least one and at least the pool's chunk count on the paths the theorems
cover, so truncated subtraction agrees with machine subtraction there.
The singly linked chain
`mem_Pools[chunkType]` (linked through `m_pNextPool`) is modelled as a Lean
list whose head is the chain head; prepending a pool is consing, unlinking a
pool is removing its list position.  The two collaborators that are not part
of the sources (the single-pool chunk tracker of `mem-pool.c` and the heap of
`mem-heap.c`) are modelled from the spec at their interface boundary; each
such definition is marked `Modelled from the spec`.
-/

namespace Jerry

/-- Modelled from the spec: the number of supported size classes
(`MEM_POOL_CHUNK_TYPE__COUNT`); the header declaring `mem_PoolChunkType_t` is
not among the sources.  The spec fixes chunk sizes `1 <<< (c + 2)` per class;
the historical enumeration has five classes (4, 8, 16, 32, 64 bytes). -/
def MEM_POOL_CHUNK_TYPE__COUNT : Nat := 5

/-- Modelled from the spec: `sizeof (mword_t)`, the "one word" of per-pool
bookkeeping overhead added to every backing-block size request. -/
def sizeof_mword : Nat := 4

/-- Modelled from the spec: `sizeof (mem_PoolState_t)`, the byte size of one
pool header record, used only for sizing the bootstrap pool's backing block. -/
def sizeof_mem_PoolState_t : Nat := 20

/-- Embedding of `mem_GetChunkSize`: `1u << (chunkTypeId + 2)` in 32-bit
unsigned arithmetic. -/
def mem_GetChunkSize (chunkType : Nat) : Nat :=
  (1 <<< (chunkType + 2)) % 2 ^ 32

/-- One pool record (`mem_PoolState_t`).  The `m_pNextPool` link is not a
field: chain order is carried by the enclosing list.  `m_FreeFlags` is
modelled from the spec: it is the pool-internal free/used tracking of the
Pool collaborator (`mem-pool.c` is not among the sources); flag `i` covers
the chunk at address `m_pChunks + i * m_ChunkSize`, `true` meaning free. -/
structure mem_PoolState_t where
  m_ChunkSize  : Nat
  m_pPoolStart : Nat
  m_PoolSize   : Nat
  m_pChunks    : Nat
  m_FreeFlags  : List Bool
deriving DecidableEq, Repr

/-- Number of `true` flags: a bespoke recursion used as the pool's free-chunk
count. -/
def countTrue : List Bool → Nat
  | [] => 0
  | true :: r => countTrue r + 1
  | false :: r => countTrue r

/-- The pool's current free-chunk count (`m_FreeChunksNumber`), maintained by
the Pool collaborator; modelled as the number of free flags. -/
def mem_PoolState_t.m_FreeChunksNumber (ps : mem_PoolState_t) : Nat :=
  countTrue ps.m_FreeFlags

/-- The pool's total chunk count (`m_ChunksNumber`). -/
def mem_PoolState_t.m_ChunksNumber (ps : mem_PoolState_t) : Nat :=
  ps.m_FreeFlags.length

/-- Write flag `i` (no-op when out of range, matching a bitmap write that the
caller contract keeps in range). -/
def setFlag : List Bool → Nat → Bool → List Bool
  | [], _, _ => []
  | _ :: r, 0, v => v :: r
  | b :: r, n + 1, v => b :: setFlag r n v

/-- Read flag `i`. -/
def getFlag : List Bool → Nat → Option Bool
  | [], _ => none
  | b :: _, 0 => some b
  | _ :: r, n + 1 => getFlag r n

/-- Take the first free chunk: returns its index and the updated flags.
Modelled from the spec: the Pool collaborator's `allocateChunk` hands out one
currently-free chunk of the pool (`none` when the pool is full). -/
def allocFromFlags : List Bool → Option (Nat × List Bool)
  | [] => none
  | true :: r => some (0, false :: r)
  | false :: r =>
    match allocFromFlags r with
    | none => none
    | some (i, fs) => some (i + 1, false :: fs)

/-- Modelled from the spec: `mem_PoolInit (poolState, chunkSize, poolSpace,
poolSpaceSize)` of the Pool collaborator — lay the pool over the backing
block: one word of bookkeeping, then as many chunks as fit, all free. -/
def mem_PoolInit (chunkSize poolSpace poolSpaceSize : Nat) : mem_PoolState_t :=
  { m_ChunkSize := chunkSize
    m_pPoolStart := poolSpace
    m_PoolSize := poolSpaceSize
    m_pChunks := poolSpace + sizeof_mword
    m_FreeFlags := List.replicate ((poolSpaceSize - sizeof_mword) / chunkSize) true }

/-- Modelled from the spec: the Pool collaborator's `allocateChunk` on an
ordinary pool — the chunk pointer and the updated pool, or `none` when no
chunk is free (the C call then returns `NULL`). -/
def mem_PoolAllocChunk (ps : mem_PoolState_t) : Option (Nat × mem_PoolState_t) :=
  match allocFromFlags ps.m_FreeFlags with
  | none => none
  | some (i, fs) =>
    some (ps.m_pChunks + i * ps.m_ChunkSize, { ps with m_FreeFlags := fs })

/-- Modelled from the spec: the Pool collaborator's `releaseChunk` — mark the
chunk holding address `pChunk` free again. -/
def mem_PoolFreeChunk (ps : mem_PoolState_t) (pChunk : Nat) : mem_PoolState_t :=
  { ps with
    m_FreeFlags := setFlag ps.m_FreeFlags ((pChunk - ps.m_pChunks) / ps.m_ChunkSize) true }

/-- The bootstrap pool `mem_PoolForPoolHeaders`.  Modelled from the spec: it
is used only through `allocateChunk` / `releaseChunk` and its chunk addresses
never matter to the pool manager's control flow, so only its free-chunk count
is tracked. -/
structure HeaderPool where
  m_FreeChunksNumber : Nat
deriving DecidableEq, Repr

/-- Modelled from the spec: `mem_PoolAllocChunk (&mem_PoolForPoolHeaders)` —
`NULL` exactly when the bootstrap pool has no free chunk, otherwise one chunk
is taken. -/
def HeaderPool.allocChunk (h : HeaderPool) : Option HeaderPool :=
  match h.m_FreeChunksNumber with
  | 0 => none
  | n + 1 => some ⟨n⟩

/-- Modelled from the spec: `mem_PoolFreeChunk (&mem_PoolForPoolHeaders, _)`
— one chunk returns to the bootstrap pool. -/
def HeaderPool.freeChunk (h : HeaderPool) : HeaderPool :=
  ⟨h.m_FreeChunksNumber + 1⟩

/-- Modelled from the spec: the Heap collaborator, used through
`mem_HeapRecommendAllocationSize` (`recommend`, contracted to return at least
its argument) and `mem_HeapAllocBlock` (`alloc`, the block address or `none`
for `NULL`; the long-term lifetime hint does not influence the pool manager
and is dropped).  `mem_HeapFreeBlock` is recorded as an effect. -/
structure HeapModel where
  recommend : Nat → Nat
  alloc : Nat → Option Nat

/-- Calls the pool manager makes on its collaborators during one operation:
bootstrap-pool chunk allocations, heap block requests (sizes), heap block
frees (`mem_HeapFreeBlock` addresses), bootstrap-pool chunk releases. -/
structure Effects where
  headerAllocs : Nat
  heapAllocSizes : List Nat
  heapFreedBlocks : List Nat
  headerReleases : Nat
deriving DecidableEq, Repr

/-- An operation with no collaborator calls recorded. -/
def noEffects : Effects := ⟨0, [], [], 0⟩

/-- The two ways a walk over a pool chain can abort the process: a
`JERRY_ASSERT (poolState != NULL)` firing, or dereferencing a `NULL` pool
pointer in a loop condition before any assertion is reached. -/
inductive Crash where
  | assertFail
  | nullDeref
deriving DecidableEq, Repr

/-- The pool manager's global state: `mem_Pools` (chain per size class),
`mem_FreeChunksNumber` (aggregate free-chunk counter per size class) and the
bootstrap pool `mem_PoolForPoolHeaders`. -/
structure PMState where
  mem_Pools : Nat → List mem_PoolState_t
  mem_FreeChunksNumber : Nat → Nat
  mem_PoolForPoolHeaders : HeaderPool

/-- Modelled from the spec: `mem_SizeToPoolChunkType` — the size class whose
chunk size first accommodates `size` (asserted to exist in the C source). -/
def mem_SizeToPoolChunkType (size : Nat) : Nat :=
  match (List.range MEM_POOL_CHUNK_TYPE__COUNT).find?
      (fun c => decide (size ≤ mem_GetChunkSize c)) with
  | some c => c
  | none => MEM_POOL_CHUNK_TYPE__COUNT

/-- Embedding of `mem_PoolsInit`: clear every chain and counter, then build
the bootstrap pool over a heap block sized for at least four pool headers
plus one word.  The C source does not check this initial heap request for
`NULL`; a failed request leaves the bootstrap pool unusable (zero chunks). -/
def mem_PoolsInit (heap : HeapModel) : PMState :=
  { mem_Pools := fun _ => []
    mem_FreeChunksNumber := fun _ => 0
    mem_PoolForPoolHeaders :=
      match heap.alloc (heap.recommend (4 * sizeof_mem_PoolState_t + sizeof_mword)) with
      | none => ⟨0⟩
      | some _ =>
        ⟨(heap.recommend (4 * sizeof_mem_PoolState_t + sizeof_mword) - sizeof_mword) /
          mem_GetChunkSize (mem_SizeToPoolChunkType sizeof_mem_PoolState_t)⟩ }

/-- The walk of `mem_PoolsAlloc` over a chain: skip pools whose free count is
zero, then delegate to `mem_PoolAllocChunk` on the first pool with a free
chunk.  An empty chain dereferences a `NULL` head in the loop condition; a
chain that runs out fires `JERRY_ASSERT (poolState != NULL)`. -/
def allocInChain : List mem_PoolState_t → Except Crash (Option Nat × List mem_PoolState_t)
  | [] => .error .nullDeref
  | ps :: rest =>
    if ps.m_FreeChunksNumber = 0 then
      match rest with
      | [] => .error .assertFail
      | q :: r =>
        match allocInChain (q :: r) with
        | .error e => .error e
        | .ok (res, rest1) => .ok (res, ps :: rest1)
    else
      match mem_PoolAllocChunk ps with
      | none => .ok (none, ps :: rest)
      | some (ptr, ps1) => .ok (some ptr, ps1 :: rest)

/-- Embedding of `mem_PoolsAlloc`: if the class's aggregate counter is zero,
grow — carve a pool header from the bootstrap pool (`NULL` means return
`NULL`), request a heap block of recommended size for eight chunks plus one
word (`NULL` means return `NULL`, the carved header staying carved), lay a
new pool over the block, prepend it to the chain and add its chunk count to
the aggregate counter.  Then walk the chain to the first pool with a free
chunk, decrement the aggregate counter and delegate to `mem_PoolAllocChunk`. -/
def mem_PoolsAlloc (heap : HeapModel) (chunkType : Nat) (st : PMState) :
    Except Crash (Option Nat × PMState × Effects) :=
  if st.mem_FreeChunksNumber chunkType = 0 then
    match st.mem_PoolForPoolHeaders.allocChunk with
    | none => .ok (none, st, ⟨1, [], [], 0⟩)
    | some header1 =>
      match heap.alloc (heap.recommend (8 * mem_GetChunkSize chunkType + sizeof_mword)) with
      | none =>
        .ok (none, { st with mem_PoolForPoolHeaders := header1 },
             ⟨1, [heap.recommend (8 * mem_GetChunkSize chunkType + sizeof_mword)], [], 0⟩)
      | some poolSpace =>
        match allocInChain (mem_PoolInit (mem_GetChunkSize chunkType) poolSpace
            (heap.recommend (8 * mem_GetChunkSize chunkType + sizeof_mword)) ::
            st.mem_Pools chunkType) with
        | .error e => .error e
        | .ok (res, chain1) =>
          .ok (res,
               { mem_Pools := fun i => if i = chunkType then chain1 else st.mem_Pools i
                 mem_FreeChunksNumber := fun i =>
                   if i = chunkType then
                     st.mem_FreeChunksNumber chunkType +
                       (mem_PoolInit (mem_GetChunkSize chunkType) poolSpace
                         (heap.recommend (8 * mem_GetChunkSize chunkType +
                           sizeof_mword))).m_FreeChunksNumber - 1
                   else st.mem_FreeChunksNumber i
                 mem_PoolForPoolHeaders := header1 },
               ⟨1, [heap.recommend (8 * mem_GetChunkSize chunkType + sizeof_mword)], [], 0⟩)
  else
    match allocInChain (st.mem_Pools chunkType) with
    | .error e => .error e
    | .ok (res, chain1) =>
      .ok (res,
           { mem_Pools := fun i => if i = chunkType then chain1 else st.mem_Pools i
             mem_FreeChunksNumber := fun i =>
               if i = chunkType then st.mem_FreeChunksNumber chunkType - 1
               else st.mem_FreeChunksNumber i
             mem_PoolForPoolHeaders := st.mem_PoolForPoolHeaders },
           noEffects)

/-- The ownership test of `mem_PoolsFree`'s walk:
`pChunk >= poolState->m_pChunks && pChunk <= poolState->m_pPoolStart +
poolState->m_PoolSize` — note the inclusive upper bound. -/
def inRange (pChunk : Nat) (ps : mem_PoolState_t) : Bool :=
  decide (ps.m_pChunks ≤ pChunk) && decide (pChunk ≤ ps.m_pPoolStart + ps.m_PoolSize)

/-- The walk of `mem_PoolsFree` over a chain: find the first pool whose
address range contains `pChunk`, release the chunk there, and report the
updated chain together with the unlinked pool when the release left it wholly
free (the consolidation case).  An empty chain dereferences a `NULL` head in
the loop condition; a chain that runs out fires `JERRY_ASSERT`. -/
def freeInChain (pChunk : Nat) :
    List mem_PoolState_t → Except Crash (List mem_PoolState_t × Option mem_PoolState_t)
  | [] => .error .nullDeref
  | ps :: rest =>
    if inRange pChunk ps then
      let ps1 := mem_PoolFreeChunk ps pChunk
      if ps1.m_FreeChunksNumber = ps1.m_ChunksNumber then .ok (rest, some ps1)
      else .ok (ps1 :: rest, none)
    else
      match rest with
      | [] => .error .assertFail
      | q :: r =>
        match freeInChain pChunk (q :: r) with
        | .error e => .error e
        | .ok (rest1, c) => .ok (ps :: rest1, c)

/-- Embedding of `mem_PoolsFree`: walk the class's chain to the owning pool,
release the chunk there and increment the aggregate counter; if the pool is
now wholly free, unlink it, subtract its chunk count from the aggregate
counter, return its backing block to the heap and release its header back to
the bootstrap pool. -/
def mem_PoolsFree (chunkType pChunk : Nat) (st : PMState) :
    Except Crash (PMState × Effects) :=
  match freeInChain pChunk (st.mem_Pools chunkType) with
  | .error e => .error e
  | .ok (chain1, none) =>
    .ok ({ mem_Pools := fun i => if i = chunkType then chain1 else st.mem_Pools i
           mem_FreeChunksNumber := fun i =>
             if i = chunkType then st.mem_FreeChunksNumber chunkType + 1
             else st.mem_FreeChunksNumber i
           mem_PoolForPoolHeaders := st.mem_PoolForPoolHeaders },
         noEffects)
  | .ok (chain1, some ps1) =>
    .ok ({ mem_Pools := fun i => if i = chunkType then chain1 else st.mem_Pools i
           mem_FreeChunksNumber := fun i =>
             if i = chunkType then
               st.mem_FreeChunksNumber chunkType + 1 - ps1.m_ChunksNumber
             else st.mem_FreeChunksNumber i
           mem_PoolForPoolHeaders := st.mem_PoolForPoolHeaders.freeChunk },
         ⟨0, [], [ps1.m_pPoolStart], 1⟩)

/-- State after a completed `mem_PoolsAlloc` call (the pre-state when the
call aborted on an assertion / null dereference, i.e. did not complete). -/
def allocStateD (heap : HeapModel) (chunkType : Nat) (st : PMState) : PMState :=
  match mem_PoolsAlloc heap chunkType st with
  | .ok (_, st1, _) => st1
  | .error _ => st

/-- Return value of a completed `mem_PoolsAlloc` call: `some (some p)` a
chunk pointer, `some none` the `NULL` failure return, `none` an aborted
call. -/
def allocValue (heap : HeapModel) (chunkType : Nat) (st : PMState) : Option (Option Nat) :=
  match mem_PoolsAlloc heap chunkType st with
  | .ok (r, _, _) => some r
  | .error _ => none

/-- Collaborator calls of a completed `mem_PoolsAlloc` call. -/
def allocEffects (heap : HeapModel) (chunkType : Nat) (st : PMState) : Effects :=
  match mem_PoolsAlloc heap chunkType st with
  | .ok (_, _, e) => e
  | .error _ => noEffects

/-- State after a completed `mem_PoolsFree` call (the pre-state when the call
aborted). -/
def freeStateD (chunkType pChunk : Nat) (st : PMState) : PMState :=
  match mem_PoolsFree chunkType pChunk st with
  | .ok (st1, _) => st1
  | .error _ => st

/-- `some ()` when the `mem_PoolsFree` call completed, `none` when it
aborted. -/
def freeValue (chunkType pChunk : Nat) (st : PMState) : Option Unit :=
  match mem_PoolsFree chunkType pChunk st with
  | .ok _ => some ()
  | .error _ => none

/-- The abort kind of a `mem_PoolsFree` call, when it aborted. -/
def freeCrash (chunkType pChunk : Nat) (st : PMState) : Option Crash :=
  match mem_PoolsFree chunkType pChunk st with
  | .ok _ => none
  | .error e => some e

/-- Collaborator calls of a completed `mem_PoolsFree` call. -/
def freeEffects (chunkType pChunk : Nat) (st : PMState) : Effects :=
  match mem_PoolsFree chunkType pChunk st with
  | .ok (_, e) => e
  | .error _ => noEffects

/-- Sum of the per-pool free-chunk counts along a chain. -/
def chainFree : List mem_PoolState_t → Nat
  | [] => 0
  | ps :: r => ps.m_FreeChunksNumber + chainFree r

/-- The accounting invariant for one size class: the aggregate free-chunk
counter equals the sum of the chain members' free-chunk counts. -/
def AccountingInv (st : PMState) (chunkType : Nat) : Prop :=
  st.mem_FreeChunksNumber chunkType = chainFree (st.mem_Pools chunkType)

/-- A legitimate free target for a chain: the first pool whose range contains
`pChunk` exists and holds `pChunk` as a currently-allocated chunk (the caller
contract of `mem_PoolsFree`). -/
def validFreeTarget (pChunk : Nat) : List mem_PoolState_t → Bool
  | [] => false
  | ps :: rest =>
    if inRange pChunk ps then
      getFlag ps.m_FreeFlags ((pChunk - ps.m_pChunks) / ps.m_ChunkSize) == some false
    else validFreeTarget pChunk rest

/-- Basic well-formedness of one pool record, as established by
`mem_PoolInit`: a positive chunk size, the chunk area starting inside the
backing block, and every chunk lying inside the backing block. -/
def wfPool (ps : mem_PoolState_t) : Bool :=
  decide (0 < ps.m_ChunkSize) &&
  decide (ps.m_pPoolStart ≤ ps.m_pChunks) &&
  decide (ps.m_pChunks + ps.m_ChunksNumber * ps.m_ChunkSize ≤ ps.m_pPoolStart + ps.m_PoolSize)

/-- Well-formedness of every pool of a chain. -/
def wfChain (l : List mem_PoolState_t) : Bool :=
  l.all wfPool

/-- No pool of the chain is wholly free (consolidation in `mem_PoolsFree`
removes a wholly free pool at once, so chains satisfy this between calls). -/
def noWhollyFree (l : List mem_PoolState_t) : Bool :=
  l.all (fun ps => decide (ps.m_FreeChunksNumber ≠ ps.m_ChunksNumber))

/-- The ownership ranges of two pools are separated (no address satisfies
both pools' `inRange` test). -/
def disjointRanges (a b : mem_PoolState_t) : Bool :=
  decide (a.m_pPoolStart + a.m_PoolSize < b.m_pChunks) ||
  decide (b.m_pPoolStart + b.m_PoolSize < a.m_pChunks)

/-- Pairwise separation of the ownership ranges along a chain. -/
def chainDisjoint : List mem_PoolState_t → Bool
  | [] => true
  | ps :: rest => rest.all (disjointRanges ps) && chainDisjoint rest

/-- Writing a flag keeps the flag count. -/
theorem length_setFlag (l : List Bool) (i : Nat) (v : Bool) :
    (setFlag l i v).length = l.length := by
  induction l generalizing i with
  | nil => rfl
  | cons b r ih =>
    cases i with
    | zero => rfl
    | succ n => simp [setFlag, ih]

/-- A successfully read flag index is within the flags. -/
theorem getFlag_lt_length (l : List Bool) (i : Nat) (b : Bool)
    (h : getFlag l i = some b) : i < l.length := by
  induction l generalizing i with
  | nil => simp [getFlag] at h
  | cons c r ih =>
    cases i with
    | zero => simp
    | succ n =>
      have := ih n (by simpa [getFlag] using h)
      simpa using Nat.succ_lt_succ this

/-- Overwriting the same flag twice keeps only the second write. -/
theorem setFlag_setFlag (l : List Bool) (i : Nat) (a b : Bool) :
    setFlag (setFlag l i a) i b = setFlag l i b := by
  induction l generalizing i with
  | nil => rfl
  | cons c r ih =>
    cases i with
    | zero => rfl
    | succ n => simp [setFlag, ih]

/-- Writing a flag's current value changes nothing. -/
theorem setFlag_same (l : List Bool) (i : Nat) (v : Bool)
    (h : getFlag l i = some v) : setFlag l i v = l := by
  induction l generalizing i with
  | nil => rfl
  | cons c r ih =>
    cases i with
    | zero => simp [getFlag] at h; simp [setFlag, h]
    | succ n =>
      simp [getFlag] at h
      simp [setFlag, ih n h]

/-- Marking a used chunk free increments the free count. -/
theorem countTrue_setFlag_true (l : List Bool) (i : Nat)
    (h : getFlag l i = some false) :
    countTrue (setFlag l i true) = countTrue l + 1 := by
  induction l generalizing i with
  | nil => simp [getFlag] at h
  | cons c r ih =>
    cases i with
    | zero =>
      simp [getFlag] at h
      subst h
      simp [setFlag, countTrue]
    | succ n =>
      simp [getFlag] at h
      cases c with
      | true => simp [setFlag, countTrue, ih n h]
      | false => simp [setFlag, countTrue, ih n h]

/-- `allocFromFlags` fails exactly on a full pool. -/
theorem allocFromFlags_eq_none (l : List Bool) :
    allocFromFlags l = none ↔ countTrue l = 0 := by
  induction l with
  | nil => simp [allocFromFlags, countTrue]
  | cons b r ih =>
    cases b with
    | true => simp [allocFromFlags, countTrue]
    | false =>
      simp only [allocFromFlags, countTrue]
      rw [← ih]
      cases h : allocFromFlags r with
      | none => simp
      | some p => cases p with | mk i fs => simp

/-- What `allocFromFlags` hands out: a currently free index, and the flags
with exactly that index cleared. -/
theorem allocFromFlags_spec (l : List Bool) (i : Nat) (fs : List Bool)
    (h : allocFromFlags l = some (i, fs)) :
    getFlag l i = some true ∧ fs = setFlag l i false := by
  induction l generalizing i fs with
  | nil => simp [allocFromFlags] at h
  | cons b r ih =>
    cases b with
    | true =>
      simp [allocFromFlags] at h
      obtain ⟨h1, h2⟩ := h
      subst h1
      subst h2
      simp [getFlag, setFlag]
    | false =>
      simp only [allocFromFlags] at h
      cases hr : allocFromFlags r with
      | none => rw [hr] at h; simp at h
      | some p =>
        cases p with
        | mk j gs =>
          rw [hr] at h
          simp at h
          obtain ⟨h1, h2⟩ := h
          subst h1
          subst h2
          obtain ⟨g1, g2⟩ := ih j gs hr
          exact ⟨by simpa [getFlag] using g1, by simp [setFlag, g2]⟩

/-- `allocFromFlags` takes exactly one free chunk. -/
theorem countTrue_allocFromFlags (l : List Bool) (i : Nat) (fs : List Bool)
    (h : allocFromFlags l = some (i, fs)) :
    countTrue fs + 1 = countTrue l := by
  induction l generalizing i fs with
  | nil => simp [allocFromFlags] at h
  | cons b r ih =>
    cases b with
    | true =>
      simp [allocFromFlags] at h
      obtain ⟨_, h2⟩ := h
      subst h2
      simp [countTrue]
    | false =>
      simp only [allocFromFlags] at h
      cases hr : allocFromFlags r with
      | none => rw [hr] at h; simp at h
      | some p =>
        cases p with
        | mk j gs =>
          rw [hr] at h
          simp at h
          obtain ⟨_, h2⟩ := h
          subst h2
          simp [countTrue, ih j gs hr]

/-- `allocFromFlags` keeps the chunk count. -/
theorem length_allocFromFlags (l : List Bool) (i : Nat) (fs : List Bool)
    (h : allocFromFlags l = some (i, fs)) : fs.length = l.length := by
  have := (allocFromFlags_spec l i fs h).2
  subst this
  exact length_setFlag l i false

/-- A pool that hands out a chunk had a free chunk. -/
theorem free_ne_zero_of_allocChunk (ps : mem_PoolState_t) (ptr : Nat)
    (ps1 : mem_PoolState_t) (h : mem_PoolAllocChunk ps = some (ptr, ps1)) :
    ps.m_FreeChunksNumber ≠ 0 := by
  unfold mem_PoolAllocChunk at h
  cases hf : allocFromFlags ps.m_FreeFlags with
  | none =>
    rw [hf] at h
    simp at h
  | some p =>
    intro hz
    have := (allocFromFlags_eq_none ps.m_FreeFlags).2 hz
    rw [this] at hf
    simp at hf

/-- Chain sums add along concatenation. -/
theorem chainFree_append (l1 l2 : List mem_PoolState_t) :
    chainFree (l1 ++ l2) = chainFree l1 + chainFree l2 := by
  induction l1 with
  | nil => simp [chainFree]
  | cons ps r ih => simp [chainFree, ih]; omega

/-- A chain of pools with no free chunk sums to zero. -/
theorem chainFree_eq_zero (l : List mem_PoolState_t)
    (h : ∀ q ∈ l, q.m_FreeChunksNumber = 0) : chainFree l = 0 := by
  induction l with
  | nil => rfl
  | cons ps r ih =>
    simp [chainFree, h ps (by simp)]
    exact ih (fun q hq => h q (by simp [hq]))

/-- A chain with a free chunk somewhere splits at the first pool that has
one. -/
theorem exists_first_free (l : List mem_PoolState_t) (h : chainFree l ≠ 0) :
    ∃ l1 ps l2, l = l1 ++ ps :: l2 ∧ (∀ q ∈ l1, q.m_FreeChunksNumber = 0) ∧
      ps.m_FreeChunksNumber ≠ 0 := by
  induction l with
  | nil => simp [chainFree] at h
  | cons ps r ih =>
    by_cases hp : ps.m_FreeChunksNumber = 0
    · have hr : chainFree r ≠ 0 := by
        simp [chainFree, hp] at h
        simpa using h
      obtain ⟨l1, q, l2, e, hz, hq⟩ := ih hr
      exact ⟨ps :: l1, q, l2, by simp [e], by
        intro x hx
        rcases List.mem_cons.1 hx with h1 | h1
        · simpa [h1] using hp
        · exact hz x h1, hq⟩
    · exact ⟨[], ps, r, by simp, by simp, hp⟩

/-- The allocation walk skips leading pools with no free chunk and delegates
to the first pool that has one. -/
theorem allocInChain_found (l1 : List mem_PoolState_t) (ps : mem_PoolState_t)
    (l2 : List mem_PoolState_t) (ptr : Nat) (ps1 : mem_PoolState_t)
    (hz : ∀ q ∈ l1, q.m_FreeChunksNumber = 0)
    (ha : mem_PoolAllocChunk ps = some (ptr, ps1)) :
    allocInChain (l1 ++ ps :: l2) = .ok (some ptr, l1 ++ ps1 :: l2) := by
  induction l1 with
  | nil =>
    have hfree := free_ne_zero_of_allocChunk ps ptr ps1 ha
    unfold allocInChain
    simp [hfree, ha]
  | cons q r ih =>
    have hq : q.m_FreeChunksNumber = 0 := hz q (by simp)
    have hrest : r ++ ps :: l2 ≠ [] := by simp
    have ihr := ih (fun x hx => hz x (by simp [hx]))
    cases hcons : r ++ ps :: l2 with
    | nil => exact absurd hcons hrest
    | cons a b =>
      simp only [List.cons_append, allocInChain, hq, if_true, hcons]
      rw [← hcons, ihr]

/-- The allocation walk over a chain with no free chunk anywhere aborts:
a `NULL` head dereference on an empty chain, `JERRY_ASSERT` otherwise. -/
theorem allocInChain_exhausted (l : List mem_PoolState_t)
    (h : ∀ q ∈ l, q.m_FreeChunksNumber = 0) :
    ∃ e, allocInChain l = .error e ∧ (l = [] → e = Crash.nullDeref) ∧
      (l ≠ [] → e = Crash.assertFail) := by
  induction l with
  | nil => exact ⟨Crash.nullDeref, rfl, fun _ => rfl, fun hne => absurd rfl hne⟩
  | cons ps r ih =>
    have hp : ps.m_FreeChunksNumber = 0 := h ps (by simp)
    cases r with
    | nil =>
      refine ⟨Crash.assertFail, ?_, by simp, fun _ => rfl⟩
      simp [allocInChain, hp]
    | cons a b =>
      obtain ⟨e, he, -, hne⟩ := ih (fun q hq => h q (by simp [hq]))
      have he2 : e = Crash.assertFail := hne (by simp)
      subst he2
      refine ⟨Crash.assertFail, ?_, by simp, fun _ => rfl⟩
      simp only [allocInChain, hp, if_true]
      rw [he]

/-- The free walk skips leading pools whose range misses the chunk and
releases in the first pool whose range holds it. -/
theorem freeInChain_found (p : Nat) (l1 : List mem_PoolState_t)
    (ps : mem_PoolState_t) (l2 : List mem_PoolState_t)
    (hmiss : ∀ q ∈ l1, inRange p q = false) (hin : inRange p ps = true) :
    freeInChain p (l1 ++ ps :: l2) =
      (if (mem_PoolFreeChunk ps p).m_FreeChunksNumber =
          (mem_PoolFreeChunk ps p).m_ChunksNumber then
        .ok (l1 ++ l2, some (mem_PoolFreeChunk ps p))
      else .ok (l1 ++ mem_PoolFreeChunk ps p :: l2, none)) := by
  induction l1 with
  | nil =>
    by_cases hc : (mem_PoolFreeChunk ps p).m_FreeChunksNumber =
        (mem_PoolFreeChunk ps p).m_ChunksNumber
    · unfold freeInChain
      simp [hin, hc]
    · unfold freeInChain
      simp [hin, hc]
  | cons q r ih =>
    have hq : inRange p q = false := hmiss q (by simp)
    have ihr := ih (fun x hx => hmiss x (by simp [hx]))
    cases hcons : r ++ ps :: l2 with
    | nil => simp at hcons
    | cons a b =>
      simp only [List.cons_append, freeInChain, hq, Bool.false_eq_true,
        if_false, hcons]
      rw [← hcons, ihr]
      by_cases hc : (mem_PoolFreeChunk ps p).m_FreeChunksNumber =
          (mem_PoolFreeChunk ps p).m_ChunksNumber
      · simp [hc]
      · simp [hc]

/-- The free walk over a chain in which no pool's range holds the chunk
aborts: a `NULL` head dereference on an empty chain, `JERRY_ASSERT`
otherwise. -/
theorem freeInChain_exhausted (p : Nat) (l : List mem_PoolState_t)
    (h : ∀ q ∈ l, inRange p q = false) :
    ∃ e, freeInChain p l = .error e ∧ (l = [] → e = Crash.nullDeref) ∧
      (l ≠ [] → e = Crash.assertFail) := by
  induction l with
  | nil => exact ⟨Crash.nullDeref, rfl, fun _ => rfl, fun hne => absurd rfl hne⟩
  | cons ps r ih =>
    have hp : inRange p ps = false := h ps (by simp)
    cases r with
    | nil =>
      refine ⟨Crash.assertFail, ?_, by simp, fun _ => rfl⟩
      simp [freeInChain, hp]
    | cons a b =>
      obtain ⟨e, he, -, hne⟩ := ih (fun q hq => h q (by simp [hq]))
      have he2 : e = Crash.assertFail := hne (by simp)
      subst he2
      refine ⟨Crash.assertFail, ?_, by simp, fun _ => rfl⟩
      simp only [freeInChain, hp, Bool.false_eq_true, if_false]
      rw [he]

/-- A valid free target splits its chain at the first owning pool and names
the allocated chunk there. -/
theorem validFreeTarget_split (p : Nat) (l : List mem_PoolState_t)
    (h : validFreeTarget p l = true) :
    ∃ l1 ps l2, l = l1 ++ ps :: l2 ∧ (∀ q ∈ l1, inRange p q = false) ∧
      inRange p ps = true ∧
      getFlag ps.m_FreeFlags ((p - ps.m_pChunks) / ps.m_ChunkSize) = some false := by
  induction l with
  | nil => simp [validFreeTarget] at h
  | cons ps r ih =>
    by_cases hp : inRange p ps
    · refine ⟨[], ps, r, by simp, by simp, hp, ?_⟩
      simp only [validFreeTarget, hp, if_true] at h
      simpa using h
    · simp only [validFreeTarget, hp, if_false] at h
      obtain ⟨l1, q, l2, e, hz, hq, hg⟩ := ih h
      exact ⟨ps :: l1, q, l2, by simp [e], by
        intro x hx
        rcases List.mem_cons.1 hx with h1 | h1
        · simpa [h1] using hp
        · exact hz x h1, hq, hg⟩

/-- Separated ranges never both own an address. -/
theorem disjointRanges_spec (a b : mem_PoolState_t) (x : Nat)
    (hd : disjointRanges a b = true) (ha : inRange x a = true) :
    inRange x b = false := by
  rw [Bool.eq_false_iff]
  intro hb
  simp only [inRange, Bool.and_eq_true, decide_eq_true_eq] at ha hb
  simp only [disjointRanges, Bool.or_eq_true, decide_eq_true_eq] at hd
  omega

/-- In a chain with separated ranges, the pools before the owning pool miss
the owned address. -/
theorem chainDisjoint_before (l1 : List mem_PoolState_t)
    (ps : mem_PoolState_t) (l2 : List mem_PoolState_t) (x : Nat)
    (hd : chainDisjoint (l1 ++ ps :: l2) = true) (hx : inRange x ps = true) :
    ∀ q ∈ l1, inRange x q = false := by
  induction l1 with
  | nil => simp
  | cons q r ih =>
    simp only [List.cons_append, chainDisjoint, Bool.and_eq_true,
      List.all_eq_true] at hd
    intro y hy
    rcases List.mem_cons.1 hy with h1 | h1
    · subst h1
      have : disjointRanges y ps = true := hd.1 ps (by simp)
      have : disjointRanges ps y = true := by
        simp only [disjointRanges, Bool.or_eq_true] at this ⊢
        tauto
      exact disjointRanges_spec ps y x this hx
    · exact ih hd.2 y h1

/-- `mem_PoolsAlloc` on a class with a nonzero aggregate counter: no growth,
the first pool with a free chunk serves the request, the aggregate counter
drops by one. -/
theorem mem_PoolsAlloc_existing (heap : HeapModel) (c : Nat) (st : PMState)
    (l1 : List mem_PoolState_t) (ps : mem_PoolState_t)
    (l2 : List mem_PoolState_t) (ptr : Nat) (ps1 : mem_PoolState_t)
    (hc : st.mem_FreeChunksNumber c ≠ 0)
    (hchain : st.mem_Pools c = l1 ++ ps :: l2)
    (hz : ∀ q ∈ l1, q.m_FreeChunksNumber = 0)
    (ha : mem_PoolAllocChunk ps = some (ptr, ps1)) :
    mem_PoolsAlloc heap c st = .ok (some ptr,
      { mem_Pools := fun i => if i = c then l1 ++ ps1 :: l2 else st.mem_Pools i
        mem_FreeChunksNumber := fun i =>
          if i = c then st.mem_FreeChunksNumber c - 1
          else st.mem_FreeChunksNumber i
        mem_PoolForPoolHeaders := st.mem_PoolForPoolHeaders },
      noEffects) := by
  have hw := allocInChain_found l1 ps l2 ptr ps1 hz ha
  unfold mem_PoolsAlloc
  simp [hc, hchain, hw]

/-- `mem_PoolsAlloc` on a class with a zero aggregate counter when both
collaborators deliver: the new pool is laid over the heap block, prepended,
its chunk count joins the counter, and its first free chunk serves the
request. -/
theorem mem_PoolsAlloc_grow (heap : HeapModel) (c : Nat) (st : PMState)
    (h1 : HeaderPool) (addr ptr : Nat) (ps1 : mem_PoolState_t)
    (hc : st.mem_FreeChunksNumber c = 0)
    (hh : st.mem_PoolForPoolHeaders.allocChunk = some h1)
    (hb : heap.alloc (heap.recommend (8 * mem_GetChunkSize c + sizeof_mword)) =
      some addr)
    (ha : mem_PoolAllocChunk (mem_PoolInit (mem_GetChunkSize c) addr
        (heap.recommend (8 * mem_GetChunkSize c + sizeof_mword))) =
      some (ptr, ps1)) :
    mem_PoolsAlloc heap c st = .ok (some ptr,
      { mem_Pools := fun i => if i = c then ps1 :: st.mem_Pools c else st.mem_Pools i
        mem_FreeChunksNumber := fun i =>
          if i = c then
            st.mem_FreeChunksNumber c +
              (mem_PoolInit (mem_GetChunkSize c) addr
                (heap.recommend (8 * mem_GetChunkSize c + sizeof_mword))).m_FreeChunksNumber - 1
          else st.mem_FreeChunksNumber i
        mem_PoolForPoolHeaders := h1 },
      ⟨1, [heap.recommend (8 * mem_GetChunkSize c + sizeof_mword)], [], 0⟩) := by
  have hw := allocInChain_found []
    (mem_PoolInit (mem_GetChunkSize c) addr
      (heap.recommend (8 * mem_GetChunkSize c + sizeof_mword)))
    (st.mem_Pools c) ptr ps1 (by simp) ha
  simp only [List.nil_append] at hw
  unfold mem_PoolsAlloc
  simp [hc, hh, hb, hw]

/-- `mem_PoolsAlloc` on a class with a zero aggregate counter when the
bootstrap pool is out of headers: `NULL`, nothing changed. -/
theorem mem_PoolsAlloc_headerFail (heap : HeapModel) (c : Nat) (st : PMState)
    (hc : st.mem_FreeChunksNumber c = 0)
    (hh : st.mem_PoolForPoolHeaders.m_FreeChunksNumber = 0) :
    mem_PoolsAlloc heap c st = .ok (none, st, ⟨1, [], [], 0⟩) := by
  unfold mem_PoolsAlloc
  simp [hc, HeaderPool.allocChunk, hh]

/-- `mem_PoolsAlloc` on a class with a zero aggregate counter when the heap
refuses the backing block: `NULL`, with the header chunk already carved and
kept carved. -/
theorem mem_PoolsAlloc_heapFail (heap : HeapModel) (c : Nat) (st : PMState)
    (h1 : HeaderPool)
    (hc : st.mem_FreeChunksNumber c = 0)
    (hh : st.mem_PoolForPoolHeaders.allocChunk = some h1)
    (hb : heap.alloc (heap.recommend (8 * mem_GetChunkSize c + sizeof_mword)) =
      none) :
    mem_PoolsAlloc heap c st = .ok (none,
      { st with mem_PoolForPoolHeaders := h1 },
      ⟨1, [heap.recommend (8 * mem_GetChunkSize c + sizeof_mword)], [], 0⟩) := by
  unfold mem_PoolsAlloc
  simp [hc, hh, hb]

/-- `mem_PoolsFree` releasing into the first owning pool when the pool does
not become wholly free: the pool keeps its chain position, the counter rises
by one, no collaborator is called. -/
theorem mem_PoolsFree_keep (c p : Nat) (st : PMState)
    (l1 : List mem_PoolState_t) (ps : mem_PoolState_t)
    (l2 : List mem_PoolState_t)
    (hchain : st.mem_Pools c = l1 ++ ps :: l2)
    (hmiss : ∀ q ∈ l1, inRange p q = false)
    (hin : inRange p ps = true)
    (hkeep : (mem_PoolFreeChunk ps p).m_FreeChunksNumber ≠
      (mem_PoolFreeChunk ps p).m_ChunksNumber) :
    mem_PoolsFree c p st = .ok (
      { mem_Pools := fun i =>
          if i = c then l1 ++ mem_PoolFreeChunk ps p :: l2 else st.mem_Pools i
        mem_FreeChunksNumber := fun i =>
          if i = c then st.mem_FreeChunksNumber c + 1
          else st.mem_FreeChunksNumber i
        mem_PoolForPoolHeaders := st.mem_PoolForPoolHeaders },
      noEffects) := by
  have hw := freeInChain_found p l1 ps l2 hmiss hin
  rw [if_neg hkeep] at hw
  unfold mem_PoolsFree
  simp [hchain, hw]

/-- `mem_PoolsFree` releasing into the first owning pool when every chunk of
the pool is then free: the pool is unlinked, its chunk count leaves the
aggregate counter, its block goes back to the heap and its header back to the
bootstrap pool. -/
theorem mem_PoolsFree_consolidate (c p : Nat) (st : PMState)
    (l1 : List mem_PoolState_t) (ps : mem_PoolState_t)
    (l2 : List mem_PoolState_t)
    (hchain : st.mem_Pools c = l1 ++ ps :: l2)
    (hmiss : ∀ q ∈ l1, inRange p q = false)
    (hin : inRange p ps = true)
    (hfull : (mem_PoolFreeChunk ps p).m_FreeChunksNumber =
      (mem_PoolFreeChunk ps p).m_ChunksNumber) :
    mem_PoolsFree c p st = .ok (
      { mem_Pools := fun i => if i = c then l1 ++ l2 else st.mem_Pools i
        mem_FreeChunksNumber := fun i =>
          if i = c then
            st.mem_FreeChunksNumber c + 1 - (mem_PoolFreeChunk ps p).m_ChunksNumber
          else st.mem_FreeChunksNumber i
        mem_PoolForPoolHeaders := st.mem_PoolForPoolHeaders.freeChunk },
      ⟨0, [], [(mem_PoolFreeChunk ps p).m_pPoolStart], 1⟩) := by
  have hw := freeInChain_found p l1 ps l2 hmiss hin
  rw [if_pos hfull] at hw
  unfold mem_PoolsFree
  simp [hchain, hw]

/-- `mem_PoolsFree` given a pointer owned by no pool of the chain aborts:
a `NULL` head dereference on an empty chain, `JERRY_ASSERT` otherwise. -/
theorem mem_PoolsFree_nomatch (c p : Nat) (st : PMState)
    (h : ∀ q ∈ st.mem_Pools c, inRange p q = false) :
    ∃ e, mem_PoolsFree c p st = .error e ∧
      (st.mem_Pools c = [] → e = Crash.nullDeref) ∧
      (st.mem_Pools c ≠ [] → e = Crash.assertFail) := by
  obtain ⟨e, he, h1, h2⟩ := freeInChain_exhausted p (st.mem_Pools c) h
  refine ⟨e, ?_, h1, h2⟩
  unfold mem_PoolsFree
  rw [he]

/-- Every chunk of a freshly initialized pool is free. -/
theorem countTrue_replicate (k : Nat) : countTrue (List.replicate k true) = k := by
  induction k with
  | zero => rfl
  | succ m ih => simp [List.replicate_succ, countTrue, ih]

/-- A freshly initialized nonempty pool hands out its chunk zero first. -/
theorem allocFromFlags_replicate (m : Nat) :
    allocFromFlags (List.replicate (m + 1) true) =
      some (0, false :: List.replicate m true) := by
  simp [List.replicate_succ, allocFromFlags]

/-- The bootstrap pool refuses a header exactly when empty. -/
theorem headerAllocChunk_eq_none (h : HeaderPool) :
    h.allocChunk = none ↔ h.m_FreeChunksNumber = 0 := by
  cases h with
  | mk n => cases n <;> simp [HeaderPool.allocChunk]

/-- A pool with a free chunk hands one out. -/
theorem allocFromFlags_total (l : List Bool) (h : countTrue l ≠ 0) :
    ∃ i fs, allocFromFlags l = some (i, fs) := by
  cases ha : allocFromFlags l with
  | none => exact absurd ((allocFromFlags_eq_none l).1 ha) h
  | some q =>
    obtain ⟨i, fs⟩ := q
    exact ⟨i, fs, rfl⟩

/-- For a legitimate size class the 32-bit shift of `mem_GetChunkSize` does
not wrap. -/
theorem mem_GetChunkSize_eq (c : Nat) (hc : c < MEM_POOL_CHUNK_TYPE__COUNT) :
    mem_GetChunkSize c = 1 <<< (c + 2) := by
  have hc5 : c < 5 := hc
  interval_cases c <;> decide

/-- Legitimate chunk sizes are positive. -/
theorem mem_GetChunkSize_pos (c : Nat) (hc : c < MEM_POOL_CHUNK_TYPE__COUNT) :
    0 < mem_GetChunkSize c := by
  have hc5 : c < 5 := hc
  interval_cases c <;> decide

/-- A chain whose free sum is zero has no pool with a free chunk. -/
theorem chainFree_all_zero (l : List mem_PoolState_t) (h : chainFree l = 0) :
    ∀ q ∈ l, q.m_FreeChunksNumber = 0 := by
  induction l with
  | nil => simp
  | cons ps r ih =>
    simp only [chainFree, Nat.add_eq_zero] at h
    intro q hq
    rcases List.mem_cons.1 hq with h1 | h1
    · simpa [h1] using h.1
    · exact ih h.2 q h1

/-- C9: for every size class `c < MEM_POOL_CHUNK_TYPE__COUNT` the chunk byte
size is exactly `1 <<< (c + 2)`, computed by `mem_GetChunkSize` as a pure
function of the size class alone (in particular the 32-bit shift does not
wrap for any legitimate class). -/
theorem chunk_size_derivation (c : Nat) (hc : c < MEM_POOL_CHUNK_TYPE__COUNT) :
    mem_GetChunkSize c = 1 <<< (c + 2) :=
  mem_GetChunkSize_eq c hc

/-- Witness for C9 at size class 3. -/
theorem chunk_size_derivation_witness :
    3 < MEM_POOL_CHUNK_TYPE__COUNT ∧ mem_GetChunkSize 3 = 1 <<< (3 + 2) :=
  ⟨by decide, chunk_size_derivation 3 (by decide)⟩

/-- C5: when growth has already carved a pool header from the bootstrap pool
and the subsequent heap block request fails, `mem_PoolsAlloc` returns `NULL`
with the carved header abandoned: it is not released back (no
`headerReleases` effect), so the bootstrap pool's free-chunk count stays
decreased by one. -/
theorem alloc_heap_failure_leaks_header (heap : HeapModel) (c : Nat)
    (st : PMState) (h1 : HeaderPool)
    (hc : st.mem_FreeChunksNumber c = 0)
    (hh : st.mem_PoolForPoolHeaders.allocChunk = some h1)
    (hb : heap.alloc (heap.recommend (8 * mem_GetChunkSize c + sizeof_mword)) =
      none) :
    allocValue heap c st = some none ∧
    (allocStateD heap c st).mem_PoolForPoolHeaders.m_FreeChunksNumber + 1 =
      st.mem_PoolForPoolHeaders.m_FreeChunksNumber ∧
    (allocEffects heap c st).headerReleases = 0 ∧
    (allocEffects heap c st).headerAllocs = 1 := by
  have hrun := mem_PoolsAlloc_heapFail heap c st h1 hc hh hb
  unfold allocValue allocStateD allocEffects
  rw [hrun]
  refine ⟨rfl, ?_, rfl, rfl⟩
  unfold HeaderPool.allocChunk at hh
  cases hf : st.mem_PoolForPoolHeaders.m_FreeChunksNumber with
  | zero => rw [hf] at hh; simp at hh
  | succ n =>
    rw [hf] at hh
    simp at hh
    rw [← hh]

/-- Witness for C5: class 0, a bootstrap pool with two free headers, a heap
that refuses every request. -/
theorem alloc_heap_failure_leaks_header_witness :
    allocValue ⟨fun s => s, fun _ => none⟩ 0
        ⟨fun _ => [], fun _ => 0, ⟨2⟩⟩ = some none ∧
    (allocStateD ⟨fun s => s, fun _ => none⟩ 0
        ⟨fun _ => [], fun _ => 0, ⟨2⟩⟩).mem_PoolForPoolHeaders.m_FreeChunksNumber + 1 =
      (⟨fun _ => [], fun _ => 0, ⟨2⟩⟩ : PMState).mem_PoolForPoolHeaders.m_FreeChunksNumber ∧
    (allocEffects ⟨fun s => s, fun _ => none⟩ 0
        ⟨fun _ => [], fun _ => 0, ⟨2⟩⟩).headerReleases = 0 ∧
    (allocEffects ⟨fun s => s, fun _ => none⟩ 0
        ⟨fun _ => [], fun _ => 0, ⟨2⟩⟩).headerAllocs = 1 :=
  alloc_heap_failure_leaks_header ⟨fun s => s, fun _ => none⟩ 0
    ⟨fun _ => [], fun _ => 0, ⟨2⟩⟩ ⟨1⟩ rfl rfl rfl

/-- C7 counterexample: at the concrete input of an empty class-0 chain and
pointer 5, `mem_PoolsFree` aborts by dereferencing the `NULL` chain head in
the walk's loop condition, not by a `JERRY_ASSERT` assertion failure as the
claim states for the empty-chain case. -/
theorem free_empty_chain_not_assert :
    freeCrash 0 5 ⟨fun _ => [], fun _ => 0, ⟨2⟩⟩ = some Crash.nullDeref ∧
    freeCrash 0 5 ⟨fun _ => [], fun _ => 0, ⟨2⟩⟩ ≠ some Crash.assertFail := by
  constructor
  · rfl
  · intro h
    have h2 : Crash.nullDeref = Crash.assertFail := by
      have h1 : freeCrash 0 5 ⟨fun _ => [], fun _ => 0, ⟨2⟩⟩ =
          some Crash.nullDeref := rfl
      rw [h1] at h
      exact Option.some.inj h
    exact Crash.noConfusion h2

/-- C7 amended: a `mem_PoolsFree` call whose pointer lies strictly outside
every pool's backing-block range for its size class never succeeds silently
and mutates nothing — it aborts with `JERRY_ASSERT` when the chain is
nonempty, and with a `NULL` pool dereference (before any assertion) when the
chain is empty. -/
theorem free_outside_every_pool_aborts (c p : Nat) (st : PMState)
    (h : ∀ q ∈ st.mem_Pools c, inRange p q = false) :
    freeValue c p st = none ∧
    freeStateD c p st = st ∧
    (st.mem_Pools c ≠ [] → freeCrash c p st = some Crash.assertFail) ∧
    (st.mem_Pools c = [] → freeCrash c p st = some Crash.nullDeref) := by
  obtain ⟨e, he, h1, h2⟩ := mem_PoolsFree_nomatch c p st h
  unfold freeValue freeStateD freeCrash
  rw [he]
  exact ⟨rfl, rfl, fun hne => by rw [h2 hne], fun hnil => by rw [h1 hnil]⟩

/-- Witness for the amended C7: one class-0 pool covering `[1004, 1036]`, the
pointer 2000 outside it. -/
theorem free_outside_every_pool_aborts_witness :
    freeValue 0 2000
        ⟨fun _ => [⟨4, 1000, 36, 1004, List.replicate 8 true⟩], fun _ => 8, ⟨1⟩⟩ = none ∧
    freeStateD 0 2000
        ⟨fun _ => [⟨4, 1000, 36, 1004, List.replicate 8 true⟩], fun _ => 8, ⟨1⟩⟩ =
      ⟨fun _ => [⟨4, 1000, 36, 1004, List.replicate 8 true⟩], fun _ => 8, ⟨1⟩⟩ ∧
    ((⟨fun _ => [⟨4, 1000, 36, 1004, List.replicate 8 true⟩], fun _ => 8, ⟨1⟩⟩ :
        PMState).mem_Pools 0 ≠ [] →
      freeCrash 0 2000
        ⟨fun _ => [⟨4, 1000, 36, 1004, List.replicate 8 true⟩], fun _ => 8, ⟨1⟩⟩ =
        some Crash.assertFail) ∧
    ((⟨fun _ => [⟨4, 1000, 36, 1004, List.replicate 8 true⟩], fun _ => 8, ⟨1⟩⟩ :
        PMState).mem_Pools 0 = [] →
      freeCrash 0 2000
        ⟨fun _ => [⟨4, 1000, 36, 1004, List.replicate 8 true⟩], fun _ => 8, ⟨1⟩⟩ =
        some Crash.nullDeref) :=
  free_outside_every_pool_aborts 0 2000
    ⟨fun _ => [⟨4, 1000, 36, 1004, List.replicate 8 true⟩], fun _ => 8, ⟨1⟩⟩
    (by decide)

/-- C6: the walk of `mem_PoolsFree` selects the first PoolRecord of the
class's chain whose range `[m_pChunks, m_pPoolStart + m_PoolSize]` contains
the pointer — the release lands in that pool (kept in place or unlinked) and
the pools before it are untouched — and the range's upper bound is inclusive:
the address exactly at `m_pPoolStart + m_PoolSize`, one byte past the backing
block, still matches the pool. -/
theorem free_first_owner_inclusive (c p : Nat) (st : PMState)
    (l1 : List mem_PoolState_t) (ps : mem_PoolState_t)
    (l2 : List mem_PoolState_t)
    (hchain : st.mem_Pools c = l1 ++ ps :: l2)
    (hmiss : ∀ q ∈ l1, inRange p q = false)
    (hin : inRange p ps = true) :
    (freeValue c p st = some () ∧
      ((freeStateD c p st).mem_Pools c = l1 ++ mem_PoolFreeChunk ps p :: l2 ∨
       (freeStateD c p st).mem_Pools c = l1 ++ l2)) ∧
    (∀ q : mem_PoolState_t, q.m_pChunks ≤ q.m_pPoolStart + q.m_PoolSize →
      inRange (q.m_pPoolStart + q.m_PoolSize) q = true) := by
  constructor
  · by_cases hfull : (mem_PoolFreeChunk ps p).m_FreeChunksNumber =
        (mem_PoolFreeChunk ps p).m_ChunksNumber
    · have hrun := mem_PoolsFree_consolidate c p st l1 ps l2 hchain hmiss hin hfull
      unfold freeValue freeStateD
      rw [hrun]
      exact ⟨rfl, Or.inr (by simp)⟩
    · have hrun := mem_PoolsFree_keep c p st l1 ps l2 hchain hmiss hin hfull
      unfold freeValue freeStateD
      rw [hrun]
      exact ⟨rfl, Or.inl (by simp)⟩
  · intro q hq
    simp only [inRange, Bool.and_eq_true, decide_eq_true_eq]
    omega

/-- Witness for C6: a two-pool class-0 chain, the pointer owned by the second
pool (and equal to one byte past its own chunk end is not needed here; the
inclusive-bound conjunct is universally quantified and instantiated by the
theorem itself). -/
theorem free_first_owner_inclusive_witness :
    (freeValue 0 1104
        ⟨fun _ => [⟨4, 1000, 36, 1004, List.replicate 8 false⟩,
                   ⟨4, 1100, 36, 1104, false :: List.replicate 7 true⟩],
          fun _ => 7, ⟨1⟩⟩ = some () ∧
      ((freeStateD 0 1104
          ⟨fun _ => [⟨4, 1000, 36, 1004, List.replicate 8 false⟩,
                     ⟨4, 1100, 36, 1104, false :: List.replicate 7 true⟩],
            fun _ => 7, ⟨1⟩⟩).mem_Pools 0 =
        [⟨4, 1000, 36, 1004, List.replicate 8 false⟩] ++
          mem_PoolFreeChunk ⟨4, 1100, 36, 1104, false :: List.replicate 7 true⟩ 1104 :: [] ∨
       (freeStateD 0 1104
          ⟨fun _ => [⟨4, 1000, 36, 1004, List.replicate 8 false⟩,
                     ⟨4, 1100, 36, 1104, false :: List.replicate 7 true⟩],
            fun _ => 7, ⟨1⟩⟩).mem_Pools 0 =
        [⟨4, 1000, 36, 1004, List.replicate 8 false⟩] ++ [])) ∧
    (∀ q : mem_PoolState_t, q.m_pChunks ≤ q.m_pPoolStart + q.m_PoolSize →
      inRange (q.m_pPoolStart + q.m_PoolSize) q = true) :=
  free_first_owner_inclusive 0 1104
    ⟨fun _ => [⟨4, 1000, 36, 1004, List.replicate 8 false⟩,
               ⟨4, 1100, 36, 1104, false :: List.replicate 7 true⟩],
      fun _ => 7, ⟨1⟩⟩
    [⟨4, 1000, 36, 1004, List.replicate 8 false⟩]
    ⟨4, 1100, 36, 1104, false :: List.replicate 7 true⟩ [] rfl (by decide)
    (by decide)

/-- C3: releasing a chunk unlinks the owning PoolRecord exactly when its
free-chunk count after the release equals its total chunk count; in that case
the previous nodes are preserved (the link is patched), the pool's total
chunk count leaves the class's aggregate counter, its backing block goes back
to the heap and its header back to the bootstrap pool; otherwise the pool
stays in the chain at its position and only the aggregate counter rises by
one. -/
theorem free_consolidation_exact (c p : Nat) (st : PMState)
    (l1 : List mem_PoolState_t) (ps : mem_PoolState_t)
    (l2 : List mem_PoolState_t)
    (hchain : st.mem_Pools c = l1 ++ ps :: l2)
    (hmiss : ∀ q ∈ l1, inRange p q = false)
    (hin : inRange p ps = true) :
    ((mem_PoolFreeChunk ps p).m_FreeChunksNumber =
        (mem_PoolFreeChunk ps p).m_ChunksNumber →
      freeValue c p st = some () ∧
      (freeStateD c p st).mem_Pools c = l1 ++ l2 ∧
      (freeStateD c p st).mem_FreeChunksNumber c =
        st.mem_FreeChunksNumber c + 1 - (mem_PoolFreeChunk ps p).m_ChunksNumber ∧
      freeEffects c p st = ⟨0, [], [ps.m_pPoolStart], 1⟩ ∧
      (freeStateD c p st).mem_PoolForPoolHeaders.m_FreeChunksNumber =
        st.mem_PoolForPoolHeaders.m_FreeChunksNumber + 1) ∧
    ((mem_PoolFreeChunk ps p).m_FreeChunksNumber ≠
        (mem_PoolFreeChunk ps p).m_ChunksNumber →
      freeValue c p st = some () ∧
      (freeStateD c p st).mem_Pools c = l1 ++ mem_PoolFreeChunk ps p :: l2 ∧
      (freeStateD c p st).mem_FreeChunksNumber c = st.mem_FreeChunksNumber c + 1 ∧
      freeEffects c p st = noEffects ∧
      (freeStateD c p st).mem_PoolForPoolHeaders = st.mem_PoolForPoolHeaders) := by
  constructor
  · intro hfull
    have hrun := mem_PoolsFree_consolidate c p st l1 ps l2 hchain hmiss hin hfull
    unfold freeValue freeStateD freeEffects
    rw [hrun]
    refine ⟨rfl, by simp, by simp, ?_, rfl⟩
    simp [mem_PoolFreeChunk]
  · intro hkeep
    have hrun := mem_PoolsFree_keep c p st l1 ps l2 hchain hmiss hin hkeep
    unfold freeValue freeStateD freeEffects
    rw [hrun]
    exact ⟨rfl, by simp, by simp, rfl, rfl⟩

/-- Witness for C3 on the consolidating branch: one class-0 pool with seven
of eight chunks free, releasing the eighth. -/
theorem free_consolidation_exact_witness :
    (mem_PoolFreeChunk ⟨4, 1000, 36, 1004, false :: List.replicate 7 true⟩
        1004).m_FreeChunksNumber =
      (mem_PoolFreeChunk ⟨4, 1000, 36, 1004, false :: List.replicate 7 true⟩
        1004).m_ChunksNumber ∧
    (freeValue 0 1004
        ⟨fun _ => [⟨4, 1000, 36, 1004, false :: List.replicate 7 true⟩],
          fun _ => 7, ⟨1⟩⟩ = some () ∧
      (freeStateD 0 1004
          ⟨fun _ => [⟨4, 1000, 36, 1004, false :: List.replicate 7 true⟩],
            fun _ => 7, ⟨1⟩⟩).mem_Pools 0 = [] ++ [] ∧
      (freeStateD 0 1004
          ⟨fun _ => [⟨4, 1000, 36, 1004, false :: List.replicate 7 true⟩],
            fun _ => 7, ⟨1⟩⟩).mem_FreeChunksNumber 0 =
        7 + 1 - (mem_PoolFreeChunk ⟨4, 1000, 36, 1004, false :: List.replicate 7 true⟩
          1004).m_ChunksNumber ∧
      freeEffects 0 1004
          ⟨fun _ => [⟨4, 1000, 36, 1004, false :: List.replicate 7 true⟩],
            fun _ => 7, ⟨1⟩⟩ = ⟨0, [], [1000], 1⟩ ∧
      (freeStateD 0 1004
          ⟨fun _ => [⟨4, 1000, 36, 1004, false :: List.replicate 7 true⟩],
            fun _ => 7, ⟨1⟩⟩).mem_PoolForPoolHeaders.m_FreeChunksNumber = 1 + 1) :=
  ⟨by decide,
    (free_consolidation_exact 0 1004
      ⟨fun _ => [⟨4, 1000, 36, 1004, false :: List.replicate 7 true⟩],
        fun _ => 7, ⟨1⟩⟩
      [] ⟨4, 1000, 36, 1004, false :: List.replicate 7 true⟩ [] rfl (by simp)
      (by decide)).1 (by decide)⟩

/-- C2: when the class's aggregate counter is zero at entry and both
collaborators deliver, `mem_PoolsAlloc` first carves a PoolRecord from the
bootstrap pool, then obtains a heap block for a request of at least eight
chunks plus one word, lays the new pool over it, prepends it as the new chain
head and adds its chunk count to the aggregate counter (the served chunk then
leaves both again); when the counter is nonzero at entry no bootstrap-pool or
heap call happens. -/
theorem alloc_growth_step (heap : HeapModel) (c : Nat) (st : PMState)
    (hcnt : c < MEM_POOL_CHUNK_TYPE__COUNT)
    (hrec : ∀ s, s ≤ heap.recommend s) :
    (∀ h1 addr, st.mem_FreeChunksNumber c = 0 →
      st.mem_PoolForPoolHeaders.allocChunk = some h1 →
      heap.alloc (heap.recommend (8 * mem_GetChunkSize c + sizeof_mword)) =
        some addr →
      ∃ ptr ps1,
        mem_PoolAllocChunk (mem_PoolInit (mem_GetChunkSize c) addr
          (heap.recommend (8 * mem_GetChunkSize c + sizeof_mword))) =
          some (ptr, ps1) ∧
        allocValue heap c st = some (some ptr) ∧
        (allocStateD heap c st).mem_Pools c = ps1 :: st.mem_Pools c ∧
        (allocStateD heap c st).mem_FreeChunksNumber c + 1 =
          st.mem_FreeChunksNumber c + (mem_PoolInit (mem_GetChunkSize c) addr
            (heap.recommend (8 * mem_GetChunkSize c + sizeof_mword))).m_FreeChunksNumber ∧
        (allocStateD heap c st).mem_PoolForPoolHeaders = h1 ∧
        allocEffects heap c st =
          ⟨1, [heap.recommend (8 * mem_GetChunkSize c + sizeof_mword)], [], 0⟩ ∧
        8 * mem_GetChunkSize c + sizeof_mword ≤
          heap.recommend (8 * mem_GetChunkSize c + sizeof_mword)) ∧
    (st.mem_FreeChunksNumber c ≠ 0 →
      allocEffects heap c st = noEffects ∧
      (allocStateD heap c st).mem_PoolForPoolHeaders =
        st.mem_PoolForPoolHeaders) := by
  constructor
  · intro h1 addr hc hh hb
    have hcs := mem_GetChunkSize_pos c hcnt
    have hR := hrec (8 * mem_GetChunkSize c + sizeof_mword)
    have hn : 1 ≤ (heap.recommend (8 * mem_GetChunkSize c + sizeof_mword) -
        sizeof_mword) / mem_GetChunkSize c := by
      rw [Nat.le_div_iff_mul_le hcs, one_mul]
      omega
    obtain ⟨m, hm⟩ : ∃ m, (heap.recommend (8 * mem_GetChunkSize c + sizeof_mword) -
        sizeof_mword) / mem_GetChunkSize c = m + 1 :=
      ⟨(heap.recommend (8 * mem_GetChunkSize c + sizeof_mword) -
        sizeof_mword) / mem_GetChunkSize c - 1, by omega⟩
    have hflags : (mem_PoolInit (mem_GetChunkSize c) addr
        (heap.recommend (8 * mem_GetChunkSize c + sizeof_mword))).m_FreeFlags =
        List.replicate (m + 1) true := by
      simp [mem_PoolInit, hm]
    have ha : mem_PoolAllocChunk (mem_PoolInit (mem_GetChunkSize c) addr
        (heap.recommend (8 * mem_GetChunkSize c + sizeof_mword))) =
        some ((mem_PoolInit (mem_GetChunkSize c) addr
          (heap.recommend (8 * mem_GetChunkSize c + sizeof_mword))).m_pChunks +
            0 * (mem_PoolInit (mem_GetChunkSize c) addr
              (heap.recommend (8 * mem_GetChunkSize c + sizeof_mword))).m_ChunkSize,
          { mem_PoolInit (mem_GetChunkSize c) addr
              (heap.recommend (8 * mem_GetChunkSize c + sizeof_mword)) with
            m_FreeFlags := false :: List.replicate m true }) := by
      unfold mem_PoolAllocChunk
      rw [hflags, allocFromFlags_replicate]
    have hrun := mem_PoolsAlloc_grow heap c st h1 addr _ _ hc hh hb ha
    have hfree : (mem_PoolInit (mem_GetChunkSize c) addr
        (heap.recommend (8 * mem_GetChunkSize c + sizeof_mword))).m_FreeChunksNumber =
        m + 1 := by
      unfold mem_PoolState_t.m_FreeChunksNumber
      rw [hflags, countTrue_replicate]
    refine ⟨_, _, ha, ?_, ?_, ?_, ?_, ?_, hR⟩
    · unfold allocValue
      rw [hrun]
    · unfold allocStateD
      rw [hrun]
      simp
    · unfold allocStateD
      rw [hrun]
      simp [hfree]
      omega
    · unfold allocStateD
      rw [hrun]
    · unfold allocEffects
      rw [hrun]
  · intro hc
    cases hw : allocInChain (st.mem_Pools c) with
    | error e =>
      unfold allocEffects allocStateD mem_PoolsAlloc
      simp [hc, hw]
    | ok pr =>
      obtain ⟨res, chain1⟩ := pr
      unfold allocEffects allocStateD mem_PoolsAlloc
      simp [hc, hw, noEffects]

/-- Witness for C2's growth branch: class 0, empty chains, two bootstrap
headers, an identity-rounding heap placing the block at 1000. -/
theorem alloc_growth_step_witness :
    ∃ ptr ps1,
      mem_PoolAllocChunk (mem_PoolInit (mem_GetChunkSize 0) 1000
        ((⟨fun s => s, fun _ => some 1000⟩ : HeapModel).recommend
          (8 * mem_GetChunkSize 0 + sizeof_mword))) = some (ptr, ps1) ∧
      allocValue ⟨fun s => s, fun _ => some 1000⟩ 0
        ⟨fun _ => [], fun _ => 0, ⟨2⟩⟩ = some (some ptr) ∧
      (allocStateD ⟨fun s => s, fun _ => some 1000⟩ 0
        ⟨fun _ => [], fun _ => 0, ⟨2⟩⟩).mem_Pools 0 =
        ps1 :: (⟨fun _ => [], fun _ => 0, ⟨2⟩⟩ : PMState).mem_Pools 0 ∧
      (allocStateD ⟨fun s => s, fun _ => some 1000⟩ 0
        ⟨fun _ => [], fun _ => 0, ⟨2⟩⟩).mem_FreeChunksNumber 0 + 1 =
        (⟨fun _ => [], fun _ => 0, ⟨2⟩⟩ : PMState).mem_FreeChunksNumber 0 +
          (mem_PoolInit (mem_GetChunkSize 0) 1000
            ((⟨fun s => s, fun _ => some 1000⟩ : HeapModel).recommend
              (8 * mem_GetChunkSize 0 + sizeof_mword))).m_FreeChunksNumber ∧
      (allocStateD ⟨fun s => s, fun _ => some 1000⟩ 0
        ⟨fun _ => [], fun _ => 0, ⟨2⟩⟩).mem_PoolForPoolHeaders = ⟨1⟩ ∧
      allocEffects ⟨fun s => s, fun _ => some 1000⟩ 0
        ⟨fun _ => [], fun _ => 0, ⟨2⟩⟩ =
        ⟨1, [(⟨fun s => s, fun _ => some 1000⟩ : HeapModel).recommend
          (8 * mem_GetChunkSize 0 + sizeof_mword)], [], 0⟩ ∧
      8 * mem_GetChunkSize 0 + sizeof_mword ≤
        (⟨fun s => s, fun _ => some 1000⟩ : HeapModel).recommend
          (8 * mem_GetChunkSize 0 + sizeof_mword) :=
  (alloc_growth_step ⟨fun s => s, fun _ => some 1000⟩ 0
    ⟨fun _ => [], fun _ => 0, ⟨2⟩⟩ (by decide) (fun s => Nat.le_refl s)).1
    ⟨1⟩ 1000 rfl rfl rfl

/-- A completed `mem_PoolsAlloc` call for class `c` writes no other class's
chain or counter. -/
theorem mem_PoolsAlloc_frame (heap : HeapModel) (c : Nat) (st : PMState)
    (res : Option Nat) (st1 : PMState) (eff : Effects)
    (hr : mem_PoolsAlloc heap c st = .ok (res, st1, eff)) (c2 : Nat)
    (h : c2 ≠ c) :
    st1.mem_Pools c2 = st.mem_Pools c2 ∧
    st1.mem_FreeChunksNumber c2 = st.mem_FreeChunksNumber c2 := by
  unfold mem_PoolsAlloc at hr
  by_cases hc : st.mem_FreeChunksNumber c = 0
  · rw [if_pos hc] at hr
    cases hh : st.mem_PoolForPoolHeaders.allocChunk with
    | none =>
      simp [hh] at hr
      obtain ⟨h1, h2, h3⟩ := hr
      subst h2
      exact ⟨rfl, rfl⟩
    | some h1 =>
      cases hb : heap.alloc (heap.recommend (8 * mem_GetChunkSize c + sizeof_mword)) with
      | none =>
        simp [hh, hb] at hr
        obtain ⟨h1, h2, h3⟩ := hr
        subst h2
        exact ⟨rfl, rfl⟩
      | some addr =>
        cases hw : allocInChain (mem_PoolInit (mem_GetChunkSize c) addr
            (heap.recommend (8 * mem_GetChunkSize c + sizeof_mword)) ::
            st.mem_Pools c) with
        | error e =>
          simp [hh, hb, hw] at hr
        | ok pr =>
          obtain ⟨r2, chain1⟩ := pr
          simp [hh, hb, hw] at hr
          obtain ⟨h1, h2, h3⟩ := hr
          subst h2
          simp [h]
  · rw [if_neg hc] at hr
    cases hw : allocInChain (st.mem_Pools c) with
    | error e =>
      simp [hw] at hr
    | ok pr =>
      obtain ⟨r2, chain1⟩ := pr
      simp [hw] at hr
      obtain ⟨h1, h2, h3⟩ := hr
      subst h2
      simp [h]

/-- A completed `mem_PoolsFree` call for class `c` writes no other class's
chain or counter. -/
theorem mem_PoolsFree_frame (c p : Nat) (st : PMState)
    (st1 : PMState) (eff : Effects)
    (hr : mem_PoolsFree c p st = .ok (st1, eff)) (c2 : Nat) (h : c2 ≠ c) :
    st1.mem_Pools c2 = st.mem_Pools c2 ∧
    st1.mem_FreeChunksNumber c2 = st.mem_FreeChunksNumber c2 := by
  unfold mem_PoolsFree at hr
  cases hw : freeInChain p (st.mem_Pools c) with
  | error e =>
    rw [hw] at hr
    simp at hr
  | ok pr =>
    obtain ⟨chain1, consolidated⟩ := pr
    rw [hw] at hr
    cases consolidated with
    | none =>
      simp at hr
      obtain ⟨h2, h3⟩ := hr
      subst h2
      simp [h]
    | some ps1 =>
      simp at hr
      obtain ⟨h2, h3⟩ := hr
      subst h2
      simp [h]

/-- The complete growth run of `mem_PoolsAlloc` when the counter is zero and
both collaborators deliver: the new pool has `m + 1` chunks, its chunk zero
is returned, and the resulting state is explicit. -/
theorem alloc_grow_full (heap : HeapModel) (c : Nat) (st : PMState)
    (h1 : HeaderPool) (addr : Nat)
    (hcnt : c < MEM_POOL_CHUNK_TYPE__COUNT)
    (hrec : ∀ s, s ≤ heap.recommend s)
    (hc : st.mem_FreeChunksNumber c = 0)
    (hh : st.mem_PoolForPoolHeaders.allocChunk = some h1)
    (hb : heap.alloc (heap.recommend (8 * mem_GetChunkSize c + sizeof_mword)) =
      some addr) :
    ∃ m,
      (mem_PoolInit (mem_GetChunkSize c) addr
        (heap.recommend (8 * mem_GetChunkSize c + sizeof_mword))).m_FreeChunksNumber =
        m + 1 ∧
      mem_PoolsAlloc heap c st = .ok
        (some ((mem_PoolInit (mem_GetChunkSize c) addr
            (heap.recommend (8 * mem_GetChunkSize c + sizeof_mword))).m_pChunks +
          0 * (mem_PoolInit (mem_GetChunkSize c) addr
            (heap.recommend (8 * mem_GetChunkSize c + sizeof_mword))).m_ChunkSize),
         { mem_Pools := fun i => if i = c then
             { mem_PoolInit (mem_GetChunkSize c) addr
                 (heap.recommend (8 * mem_GetChunkSize c + sizeof_mword)) with
               m_FreeFlags := false :: List.replicate m true } :: st.mem_Pools c
           else st.mem_Pools i
           mem_FreeChunksNumber := fun i => if i = c then
             st.mem_FreeChunksNumber c +
               (mem_PoolInit (mem_GetChunkSize c) addr
                 (heap.recommend (8 * mem_GetChunkSize c +
                   sizeof_mword))).m_FreeChunksNumber - 1
           else st.mem_FreeChunksNumber i
           mem_PoolForPoolHeaders := h1 },
         ⟨1, [heap.recommend (8 * mem_GetChunkSize c + sizeof_mword)], [], 0⟩) := by
  have hcs := mem_GetChunkSize_pos c hcnt
  have hR := hrec (8 * mem_GetChunkSize c + sizeof_mword)
  have hn : 1 ≤ (heap.recommend (8 * mem_GetChunkSize c + sizeof_mword) -
      sizeof_mword) / mem_GetChunkSize c := by
    rw [Nat.le_div_iff_mul_le hcs, one_mul]
    omega
  obtain ⟨m, hm⟩ : ∃ m, (heap.recommend (8 * mem_GetChunkSize c + sizeof_mword) -
      sizeof_mword) / mem_GetChunkSize c = m + 1 :=
    ⟨(heap.recommend (8 * mem_GetChunkSize c + sizeof_mword) -
      sizeof_mword) / mem_GetChunkSize c - 1, by omega⟩
  have hflags : (mem_PoolInit (mem_GetChunkSize c) addr
      (heap.recommend (8 * mem_GetChunkSize c + sizeof_mword))).m_FreeFlags =
      List.replicate (m + 1) true := by
    simp [mem_PoolInit, hm]
  have ha : mem_PoolAllocChunk (mem_PoolInit (mem_GetChunkSize c) addr
      (heap.recommend (8 * mem_GetChunkSize c + sizeof_mword))) =
      some ((mem_PoolInit (mem_GetChunkSize c) addr
        (heap.recommend (8 * mem_GetChunkSize c + sizeof_mword))).m_pChunks +
          0 * (mem_PoolInit (mem_GetChunkSize c) addr
            (heap.recommend (8 * mem_GetChunkSize c + sizeof_mword))).m_ChunkSize,
        { mem_PoolInit (mem_GetChunkSize c) addr
            (heap.recommend (8 * mem_GetChunkSize c + sizeof_mword)) with
          m_FreeFlags := false :: List.replicate m true }) := by
    unfold mem_PoolAllocChunk
    rw [hflags, allocFromFlags_replicate]
  have hfree : (mem_PoolInit (mem_GetChunkSize c) addr
      (heap.recommend (8 * mem_GetChunkSize c + sizeof_mword))).m_FreeChunksNumber =
      m + 1 := by
    unfold mem_PoolState_t.m_FreeChunksNumber
    rw [hflags, countTrue_replicate]
  exact ⟨m, hfree, mem_PoolsAlloc_grow heap c st h1 addr _ _ hc hh hb ha⟩

/-- C4: assuming the accounting invariant and the heap's rounding contract,
`mem_PoolsAlloc` never aborts, returns `NULL` exactly when the class's
aggregate counter was zero at entry and the bootstrap pool or the heap
refused, and returns a chunk pointer in every other case. -/
theorem alloc_failure_iff (heap : HeapModel) (c : Nat) (st : PMState)
    (hcnt : c < MEM_POOL_CHUNK_TYPE__COUNT)
    (hrec : ∀ s, s ≤ heap.recommend s)
    (hInv : AccountingInv st c) :
    (allocValue heap c st = some none ↔
      (st.mem_FreeChunksNumber c = 0 ∧
        (st.mem_PoolForPoolHeaders.m_FreeChunksNumber = 0 ∨
         heap.alloc (heap.recommend (8 * mem_GetChunkSize c + sizeof_mword)) =
           none))) ∧
    allocValue heap c st ≠ none ∧
    (¬(st.mem_FreeChunksNumber c = 0 ∧
        (st.mem_PoolForPoolHeaders.m_FreeChunksNumber = 0 ∨
         heap.alloc (heap.recommend (8 * mem_GetChunkSize c + sizeof_mword)) =
           none)) →
      ∃ ptr, allocValue heap c st = some (some ptr)) := by
  by_cases hc : st.mem_FreeChunksNumber c = 0
  · cases hf : st.mem_PoolForPoolHeaders.m_FreeChunksNumber with
    | zero =>
      have hv : allocValue heap c st = some none := by
        unfold allocValue
        rw [mem_PoolsAlloc_headerFail heap c st hc hf]
      refine ⟨by rw [hv]; simp [hc, hf], by rw [hv]; simp, fun hn => ?_⟩
      exact absurd ⟨hc, Or.inl rfl⟩ hn
    | succ n =>
      have hh : st.mem_PoolForPoolHeaders.allocChunk = some ⟨n⟩ := by
        unfold HeaderPool.allocChunk
        rw [hf]
      cases hb : heap.alloc (heap.recommend (8 * mem_GetChunkSize c +
          sizeof_mword)) with
      | none =>
        have hv : allocValue heap c st = some none := by
          unfold allocValue
          rw [mem_PoolsAlloc_heapFail heap c st ⟨n⟩ hc hh hb]
        refine ⟨by rw [hv]; simp [hc, hb], by rw [hv]; simp, fun hn => ?_⟩
        exact absurd ⟨hc, Or.inr rfl⟩ hn
      | some addr =>
        obtain ⟨m, hfree, hrun⟩ :=
          alloc_grow_full heap c st ⟨n⟩ addr hcnt hrec hc hh hb
        have hv : allocValue heap c st = some (some
            ((mem_PoolInit (mem_GetChunkSize c) addr
              (heap.recommend (8 * mem_GetChunkSize c + sizeof_mword))).m_pChunks +
            0 * (mem_PoolInit (mem_GetChunkSize c) addr
              (heap.recommend (8 * mem_GetChunkSize c + sizeof_mword))).m_ChunkSize)) := by
          unfold allocValue
          rw [hrun]
        refine ⟨by rw [hv]; simp [hf, hb], by rw [hv]; simp, fun hn => ?_⟩
        exact ⟨_, hv⟩
  · have hs : chainFree (st.mem_Pools c) ≠ 0 := by
      rw [← hInv]
      exact hc
    obtain ⟨l1, ps, l2, hsplit, hz, hfreeps⟩ :=
      exists_first_free (st.mem_Pools c) hs
    obtain ⟨i, fs, haf⟩ := allocFromFlags_total ps.m_FreeFlags hfreeps
    have ha : mem_PoolAllocChunk ps =
        some (ps.m_pChunks + i * ps.m_ChunkSize, { ps with m_FreeFlags := fs }) := by
      unfold mem_PoolAllocChunk
      rw [haf]
    have hrun := mem_PoolsAlloc_existing heap c st l1 ps l2 _ _ hc hsplit hz ha
    have hv : allocValue heap c st =
        some (some (ps.m_pChunks + i * ps.m_ChunkSize)) := by
      unfold allocValue
      rw [hrun]
    refine ⟨by rw [hv]; simp [hc], by rw [hv]; simp, fun hn => ⟨_, hv⟩⟩

/-- Witness for C4: class 0, empty chain, two bootstrap headers, a heap
placing the block at 1000 — the failure condition is false and a pointer
comes back. -/
theorem alloc_failure_iff_witness :
    (allocValue ⟨fun s => s, fun _ => some 1000⟩ 0
        ⟨fun _ => [], fun _ => 0, ⟨2⟩⟩ = some none ↔
      ((⟨fun _ => [], fun _ => 0, ⟨2⟩⟩ : PMState).mem_FreeChunksNumber 0 = 0 ∧
        ((⟨fun _ => [], fun _ => 0, ⟨2⟩⟩ : PMState).mem_PoolForPoolHeaders.m_FreeChunksNumber = 0 ∨
         (⟨fun s => s, fun _ => some 1000⟩ : HeapModel).alloc
           ((⟨fun s => s, fun _ => some 1000⟩ : HeapModel).recommend
             (8 * mem_GetChunkSize 0 + sizeof_mword)) = none))) ∧
    allocValue ⟨fun s => s, fun _ => some 1000⟩ 0
      ⟨fun _ => [], fun _ => 0, ⟨2⟩⟩ ≠ none ∧
    (¬((⟨fun _ => [], fun _ => 0, ⟨2⟩⟩ : PMState).mem_FreeChunksNumber 0 = 0 ∧
        ((⟨fun _ => [], fun _ => 0, ⟨2⟩⟩ : PMState).mem_PoolForPoolHeaders.m_FreeChunksNumber = 0 ∨
         (⟨fun s => s, fun _ => some 1000⟩ : HeapModel).alloc
           ((⟨fun s => s, fun _ => some 1000⟩ : HeapModel).recommend
             (8 * mem_GetChunkSize 0 + sizeof_mword)) = none)) →
      ∃ ptr, allocValue ⟨fun s => s, fun _ => some 1000⟩ 0
        ⟨fun _ => [], fun _ => 0, ⟨2⟩⟩ = some (some ptr)) :=
  alloc_failure_iff ⟨fun s => s, fun _ => some 1000⟩ 0
    ⟨fun _ => [], fun _ => 0, ⟨2⟩⟩ (by decide) (fun s => Nat.le_refl s) rfl

/-- C1: the accounting invariant — for every size class the aggregate
free-chunk counter equals the sum of the per-pool free counts over the
class's chain — holds after `mem_PoolsInit` and is preserved by every
completed `mem_PoolsAlloc` call and by every completed `mem_PoolsFree` call
whose pointer is a legitimate free target (the caller contract). -/
theorem accounting_invariant :
    (∀ heap c, AccountingInv (mem_PoolsInit heap) c) ∧
    (∀ heap c st, (∀ i, AccountingInv st i) →
      ∀ i, AccountingInv (allocStateD heap c st) i) ∧
    (∀ c p st, (∀ i, AccountingInv st i) →
      validFreeTarget p (st.mem_Pools c) = true →
      ∀ i, AccountingInv (freeStateD c p st) i) := by
  refine ⟨fun heap c => rfl, ?_, ?_⟩
  · intro heap c st hInv i
    by_cases hc : st.mem_FreeChunksNumber c = 0
    · cases hf : st.mem_PoolForPoolHeaders.m_FreeChunksNumber with
      | zero =>
        unfold allocStateD
        rw [mem_PoolsAlloc_headerFail heap c st hc hf]
        exact hInv i
      | succ n =>
        have hh : st.mem_PoolForPoolHeaders.allocChunk = some ⟨n⟩ := by
          unfold HeaderPool.allocChunk
          rw [hf]
        cases hb : heap.alloc (heap.recommend (8 * mem_GetChunkSize c +
            sizeof_mword)) with
        | none =>
          unfold allocStateD
          rw [mem_PoolsAlloc_heapFail heap c st ⟨n⟩ hc hh hb]
          exact hInv i
        | some addr =>
          have hzero : chainFree (st.mem_Pools c) = 0 := by
            rw [← hInv c]
            exact hc
          cases hnf : countTrue (mem_PoolInit (mem_GetChunkSize c) addr
              (heap.recommend (8 * mem_GetChunkSize c + sizeof_mword))).m_FreeFlags with
          | zero =>
            have hall : ∀ q ∈ mem_PoolInit (mem_GetChunkSize c) addr
                (heap.recommend (8 * mem_GetChunkSize c + sizeof_mword)) ::
                st.mem_Pools c, q.m_FreeChunksNumber = 0 := by
              intro q hq
              rcases List.mem_cons.1 hq with h1 | h1
              · subst h1
                exact hnf
              · exact chainFree_all_zero (st.mem_Pools c) hzero q h1
            obtain ⟨e, he, -, -⟩ := allocInChain_exhausted _ hall
            have hrun : mem_PoolsAlloc heap c st = .error e := by
              unfold mem_PoolsAlloc
              rw [if_pos hc]
              simp [hh, hb, he]
            unfold allocStateD
            rw [hrun]
            exact hInv i
          | succ m =>
            obtain ⟨j, fs, haf⟩ := allocFromFlags_total _ (by rw [hnf]; omega)
            have ha : mem_PoolAllocChunk (mem_PoolInit (mem_GetChunkSize c) addr
                (heap.recommend (8 * mem_GetChunkSize c + sizeof_mword))) =
                some ((mem_PoolInit (mem_GetChunkSize c) addr
                  (heap.recommend (8 * mem_GetChunkSize c + sizeof_mword))).m_pChunks +
                  j * (mem_PoolInit (mem_GetChunkSize c) addr
                    (heap.recommend (8 * mem_GetChunkSize c + sizeof_mword))).m_ChunkSize,
                { mem_PoolInit (mem_GetChunkSize c) addr
                    (heap.recommend (8 * mem_GetChunkSize c + sizeof_mword)) with
                  m_FreeFlags := fs }) := by
              unfold mem_PoolAllocChunk
              rw [haf]
            have hcfs : countTrue fs + 1 = m + 1 := by
              rw [← hnf]
              exact countTrue_allocFromFlags _ j fs haf
            unfold allocStateD
            rw [mem_PoolsAlloc_grow heap c st ⟨n⟩ addr _ _ hc hh hb ha]
            unfold AccountingInv
            by_cases hi : i = c
            · subst hi
              simp [chainFree, mem_PoolState_t.m_FreeChunksNumber, hnf, hzero, hc]
              omega
            · simp [hi]
              exact hInv i
    · have hs : chainFree (st.mem_Pools c) ≠ 0 := by
        rw [← hInv c]
        exact hc
      obtain ⟨l1, ps, l2, hsplit, hz, hfreeps⟩ :=
        exists_first_free (st.mem_Pools c) hs
      obtain ⟨j, fs, haf⟩ := allocFromFlags_total ps.m_FreeFlags hfreeps
      have ha : mem_PoolAllocChunk ps =
          some (ps.m_pChunks + j * ps.m_ChunkSize, { ps with m_FreeFlags := fs }) := by
        unfold mem_PoolAllocChunk
        rw [haf]
      have hcfs := countTrue_allocFromFlags _ j fs haf
      have hIc : st.mem_FreeChunksNumber c =
          chainFree l1 + (countTrue ps.m_FreeFlags + chainFree l2) := by
        have hI := hInv c
        unfold AccountingInv at hI
        rw [hsplit] at hI
        rw [hI, chainFree_append]
        rfl
      have hl1 : chainFree l1 = 0 := chainFree_eq_zero l1 hz
      unfold allocStateD
      rw [mem_PoolsAlloc_existing heap c st l1 ps l2 _ _ hc hsplit hz ha]
      unfold AccountingInv
      by_cases hi : i = c
      · subst hi
        simp [chainFree_append, chainFree, mem_PoolState_t.m_FreeChunksNumber,
          hl1]
        omega
      · simp [hi]
        exact hInv i
  · intro c p st hInv hvt i
    obtain ⟨l1, ps, l2, hsplit, hmiss, hin, hflag⟩ :=
      validFreeTarget_split p _ hvt
    have e1 : countTrue (setFlag ps.m_FreeFlags
        ((p - ps.m_pChunks) / ps.m_ChunkSize) true) =
        countTrue ps.m_FreeFlags + 1 :=
      countTrue_setFlag_true _ _ hflag
    have e3 : (setFlag ps.m_FreeFlags
        ((p - ps.m_pChunks) / ps.m_ChunkSize) true).length =
        ps.m_FreeFlags.length :=
      length_setFlag _ _ _
    have hIc : st.mem_FreeChunksNumber c =
        chainFree l1 + (countTrue ps.m_FreeFlags + chainFree l2) := by
      have hI := hInv c
      unfold AccountingInv at hI
      rw [hsplit] at hI
      rw [hI, chainFree_append]
      rfl
    by_cases hfull : (mem_PoolFreeChunk ps p).m_FreeChunksNumber =
        (mem_PoolFreeChunk ps p).m_ChunksNumber
    · have e2 : countTrue (setFlag ps.m_FreeFlags
          ((p - ps.m_pChunks) / ps.m_ChunkSize) true) =
          (setFlag ps.m_FreeFlags
            ((p - ps.m_pChunks) / ps.m_ChunkSize) true).length := hfull
      unfold freeStateD
      rw [mem_PoolsFree_consolidate c p st l1 ps l2 hsplit hmiss hin hfull]
      unfold AccountingInv
      by_cases hi : i = c
      · subst hi
        simp [chainFree_append, mem_PoolFreeChunk,
          mem_PoolState_t.m_ChunksNumber, e3]
        omega
      · simp [hi]
        exact hInv i
    · unfold freeStateD
      rw [mem_PoolsFree_keep c p st l1 ps l2 hsplit hmiss hin hfull]
      unfold AccountingInv
      by_cases hi : i = c
      · subst hi
        simp [chainFree_append, chainFree, mem_PoolFreeChunk,
          mem_PoolState_t.m_FreeChunksNumber, e1]
        omega
      · simp [hi]
        exact hInv i

/-- Witness for C1: the invariant survives the scenario's first class-0
allocation from the freshly initialized state. -/
theorem accounting_invariant_witness :
    AccountingInv (allocStateD ⟨fun s => s, fun _ => some 1000⟩ 0
      (mem_PoolsInit ⟨fun s => s, fun _ => some 1000⟩)) 0 :=
  accounting_invariant.2.1 ⟨fun s => s, fun _ => some 1000⟩ 0
    (mem_PoolsInit ⟨fun s => s, fun _ => some 1000⟩) (fun _ => rfl) 0

/-- C8: in a well-formed state (accounting invariant, well-formed pools with
separated ranges, no wholly-free pool parked in the chain — all maintained by
the pool manager between calls), when `mem_PoolsAlloc c` succeeds with
pointer `p`, the immediately following `mem_PoolsFree c p` completes and
restores the class's aggregate free-chunk counter to its value before the
allocation. -/
theorem alloc_free_roundtrip (heap : HeapModel) (c p : Nat) (st : PMState)
    (hcnt : c < MEM_POOL_CHUNK_TYPE__COUNT)
    (hrec : ∀ s, s ≤ heap.recommend s)
    (hInv : AccountingInv st c)
    (hwf : wfChain (st.mem_Pools c) = true)
    (hnw : noWhollyFree (st.mem_Pools c) = true)
    (hdis : chainDisjoint (st.mem_Pools c) = true)
    (hp : allocValue heap c st = some (some p)) :
    freeValue c p (allocStateD heap c st) = some () ∧
    (freeStateD c p (allocStateD heap c st)).mem_FreeChunksNumber c =
      st.mem_FreeChunksNumber c := by
  by_cases hc : st.mem_FreeChunksNumber c = 0
  · cases hf : st.mem_PoolForPoolHeaders.m_FreeChunksNumber with
    | zero =>
      have hv : allocValue heap c st = some none := by
        unfold allocValue
        rw [mem_PoolsAlloc_headerFail heap c st hc hf]
      rw [hv] at hp
      simp at hp
    | succ n =>
      have hh : st.mem_PoolForPoolHeaders.allocChunk = some ⟨n⟩ := by
        unfold HeaderPool.allocChunk
        rw [hf]
      cases hb : heap.alloc (heap.recommend (8 * mem_GetChunkSize c +
          sizeof_mword)) with
      | none =>
        have hv : allocValue heap c st = some none := by
          unfold allocValue
          rw [mem_PoolsAlloc_heapFail heap c st ⟨n⟩ hc hh hb]
        rw [hv] at hp
        simp at hp
      | some addr =>
        obtain ⟨m, hfree, hrun⟩ :=
          alloc_grow_full heap c st ⟨n⟩ addr hcnt hrec hc hh hb
        have hstA : allocStateD heap c st =
            { mem_Pools := fun i => if i = c then
                { mem_PoolInit (mem_GetChunkSize c) addr
                    (heap.recommend (8 * mem_GetChunkSize c + sizeof_mword)) with
                  m_FreeFlags := false :: List.replicate m true } :: st.mem_Pools c
              else st.mem_Pools i
              mem_FreeChunksNumber := fun i => if i = c then
                st.mem_FreeChunksNumber c +
                  (mem_PoolInit (mem_GetChunkSize c) addr
                    (heap.recommend (8 * mem_GetChunkSize c +
                      sizeof_mword))).m_FreeChunksNumber - 1
              else st.mem_FreeChunksNumber i
              mem_PoolForPoolHeaders := ⟨n⟩ } := by
          unfold allocStateD
          rw [hrun]
        have hv : allocValue heap c st = some (some
            ((mem_PoolInit (mem_GetChunkSize c) addr
              (heap.recommend (8 * mem_GetChunkSize c + sizeof_mword))).m_pChunks +
            0 * (mem_PoolInit (mem_GetChunkSize c) addr
              (heap.recommend (8 * mem_GetChunkSize c + sizeof_mword))).m_ChunkSize)) := by
          unfold allocValue
          rw [hrun]
        have hpeq : p = addr + sizeof_mword := by
          rw [hv] at hp
          simp [mem_PoolInit] at hp
          omega
        have hR := hrec (8 * mem_GetChunkSize c + sizeof_mword)
        have hin : inRange p
            { mem_PoolInit (mem_GetChunkSize c) addr
                (heap.recommend (8 * mem_GetChunkSize c + sizeof_mword)) with
              m_FreeFlags := false :: List.replicate m true } = true := by
          simp [inRange, mem_PoolInit, hpeq]
          omega
        have hrel : mem_PoolFreeChunk
            { mem_PoolInit (mem_GetChunkSize c) addr
                (heap.recommend (8 * mem_GetChunkSize c + sizeof_mword)) with
              m_FreeFlags := false :: List.replicate m true } p =
            { mem_PoolInit (mem_GetChunkSize c) addr
                (heap.recommend (8 * mem_GetChunkSize c + sizeof_mword)) with
              m_FreeFlags := true :: List.replicate m true } := by
          unfold mem_PoolFreeChunk
          simp [mem_PoolInit, hpeq, setFlag]
        have hfull : (mem_PoolFreeChunk
            { mem_PoolInit (mem_GetChunkSize c) addr
                (heap.recommend (8 * mem_GetChunkSize c + sizeof_mword)) with
              m_FreeFlags := false :: List.replicate m true } p).m_FreeChunksNumber =
            (mem_PoolFreeChunk
            { mem_PoolInit (mem_GetChunkSize c) addr
                (heap.recommend (8 * mem_GetChunkSize c + sizeof_mword)) with
              m_FreeFlags := false :: List.replicate m true } p).m_ChunksNumber := by
          rw [hrel]
          unfold mem_PoolState_t.m_FreeChunksNumber mem_PoolState_t.m_ChunksNumber
          simp [countTrue, countTrue_replicate]
        have hchainA : (allocStateD heap c st).mem_Pools c =
            [] ++ { mem_PoolInit (mem_GetChunkSize c) addr
                (heap.recommend (8 * mem_GetChunkSize c + sizeof_mword)) with
              m_FreeFlags := false :: List.replicate m true } :: st.mem_Pools c := by
          rw [hstA]
          simp
        have hrunF := mem_PoolsFree_consolidate c p (allocStateD heap c st)
          [] _ (st.mem_Pools c) hchainA (by simp) hin hfull
        constructor
        · unfold freeValue
          rw [hrunF]
        · unfold freeStateD
          rw [hrunF]
          simp [hstA, hrel, hfree, hc, mem_PoolState_t.m_ChunksNumber]
  · have hs : chainFree (st.mem_Pools c) ≠ 0 := by
      rw [← hInv]
      exact hc
    obtain ⟨l1, ps, l2, hsplit, hz, hfreeps⟩ :=
      exists_first_free (st.mem_Pools c) hs
    obtain ⟨i, fs, haf⟩ := allocFromFlags_total ps.m_FreeFlags hfreeps
    have ha : mem_PoolAllocChunk ps =
        some (ps.m_pChunks + i * ps.m_ChunkSize, { ps with m_FreeFlags := fs }) := by
      unfold mem_PoolAllocChunk
      rw [haf]
    obtain ⟨hget, hfs⟩ := allocFromFlags_spec ps.m_FreeFlags i fs haf
    have hilt : i < ps.m_FreeFlags.length := getFlag_lt_length _ _ _ hget
    have hmem : ps ∈ st.mem_Pools c := by
      rw [hsplit]
      exact List.mem_append_right l1 (by simp)
    have hwfp : wfPool ps = true := by
      have := List.all_eq_true.1 hwf ps hmem
      simpa using this
    have hwfd : 0 < ps.m_ChunkSize ∧ ps.m_pPoolStart ≤ ps.m_pChunks ∧
        ps.m_pChunks + ps.m_ChunksNumber * ps.m_ChunkSize ≤
          ps.m_pPoolStart + ps.m_PoolSize := by
      simpa [wfPool, Bool.and_eq_true, decide_eq_true_eq, and_assoc] using hwfp
    have hrunA := mem_PoolsAlloc_existing heap c st l1 ps l2 _ _ hc hsplit hz ha
    have hstA : allocStateD heap c st =
        { mem_Pools := fun j => if j = c then
            l1 ++ { ps with m_FreeFlags := fs } :: l2 else st.mem_Pools j
          mem_FreeChunksNumber := fun j => if j = c then
            st.mem_FreeChunksNumber c - 1 else st.mem_FreeChunksNumber j
          mem_PoolForPoolHeaders := st.mem_PoolForPoolHeaders } := by
      unfold allocStateD
      rw [hrunA]
    have hpeq : p = ps.m_pChunks + i * ps.m_ChunkSize := by
      have hv : allocValue heap c st =
          some (some (ps.m_pChunks + i * ps.m_ChunkSize)) := by
        unfold allocValue
        rw [hrunA]
      rw [hv] at hp
      simpa using hp.symm
    have hmul : (i + 1) * ps.m_ChunkSize ≤ ps.m_ChunksNumber * ps.m_ChunkSize :=
      Nat.mul_le_mul_right _ (by
        have : ps.m_ChunksNumber = ps.m_FreeFlags.length := rfl
        omega)
    have hexp : (i + 1) * ps.m_ChunkSize = i * ps.m_ChunkSize + ps.m_ChunkSize := by
      ring
    have hinps : inRange p ps = true := by
      simp only [inRange, Bool.and_eq_true, decide_eq_true_eq]
      rw [hpeq]
      exact ⟨Nat.le_add_right _ _, by omega⟩
    have hinA : inRange p { ps with m_FreeFlags := fs } = true := hinps
    have hdis2 : chainDisjoint (l1 ++ ps :: l2) = true := by
      rw [← hsplit]
      exact hdis
    have hmiss : ∀ q ∈ l1, inRange p q = false :=
      chainDisjoint_before l1 ps l2 p hdis2 hinps
    have hchainA : (allocStateD heap c st).mem_Pools c =
        l1 ++ { ps with m_FreeFlags := fs } :: l2 := by
      rw [hstA]
      simp
    have hidx : (p - ps.m_pChunks) / ps.m_ChunkSize = i := by
      rw [hpeq, Nat.add_sub_cancel_left, Nat.mul_div_cancel i hwfd.1]
    have hrel : mem_PoolFreeChunk { ps with m_FreeFlags := fs } p = ps := by
      unfold mem_PoolFreeChunk
      have hflags2 : setFlag fs ((p - ps.m_pChunks) / ps.m_ChunkSize) true =
          ps.m_FreeFlags := by
        rw [hidx, hfs, setFlag_setFlag, setFlag_same ps.m_FreeFlags i true hget]
      rw [hflags2]
    have hne : ps.m_FreeChunksNumber ≠ ps.m_ChunksNumber := by
      have := List.all_eq_true.1 hnw ps hmem
      simpa using this
    have hfull : ¬((mem_PoolFreeChunk { ps with m_FreeFlags := fs } p).m_FreeChunksNumber =
        (mem_PoolFreeChunk { ps with m_FreeFlags := fs } p).m_ChunksNumber) := by
      rw [hrel]
      exact hne
    have hrunF := mem_PoolsFree_keep c p (allocStateD heap c st)
      l1 _ l2 hchainA hmiss hinA hfull
    constructor
    · unfold freeValue
      rw [hrunF]
    · unfold freeStateD
      rw [hrunF]
      simp [hstA]
      omega

/-- Witness for C8: one class-0 pool with chunks one through six free,
allocating chunk one (pointer 1008) and freeing it again. -/
theorem alloc_free_roundtrip_witness :
    freeValue 0 1008 (allocStateD ⟨fun s => s, fun _ => some 2000⟩ 0
      ⟨fun _ => [⟨4, 1000, 36, 1004,
        [false, true, true, true, true, true, true, false]⟩],
        fun _ => 6, ⟨2⟩⟩) = some () ∧
    (freeStateD 0 1008 (allocStateD ⟨fun s => s, fun _ => some 2000⟩ 0
      ⟨fun _ => [⟨4, 1000, 36, 1004,
        [false, true, true, true, true, true, true, false]⟩],
        fun _ => 6, ⟨2⟩⟩)).mem_FreeChunksNumber 0 =
      (⟨fun _ => [⟨4, 1000, 36, 1004,
        [false, true, true, true, true, true, true, false]⟩],
        fun _ => 6, ⟨2⟩⟩ : PMState).mem_FreeChunksNumber 0 :=
  alloc_free_roundtrip ⟨fun s => s, fun _ => some 2000⟩ 0 1008
    ⟨fun _ => [⟨4, 1000, 36, 1004,
      [false, true, true, true, true, true, true, false]⟩],
      fun _ => 6, ⟨2⟩⟩
    (by decide) (fun s => Nat.le_refl s) rfl (by decide) (by decide) (by decide)
    (by decide)

/-- C10: an allocate or free call for size class `c` leaves every other size
class's chain head, chain members and aggregate counter unchanged. -/
theorem cross_class_frame (heap : HeapModel) (c c2 p : Nat) (st : PMState)
    (h : c2 ≠ c) :
    (allocStateD heap c st).mem_Pools c2 = st.mem_Pools c2 ∧
    (allocStateD heap c st).mem_FreeChunksNumber c2 = st.mem_FreeChunksNumber c2 ∧
    (freeStateD c p st).mem_Pools c2 = st.mem_Pools c2 ∧
    (freeStateD c p st).mem_FreeChunksNumber c2 = st.mem_FreeChunksNumber c2 := by
  have hA : (allocStateD heap c st).mem_Pools c2 = st.mem_Pools c2 ∧
      (allocStateD heap c st).mem_FreeChunksNumber c2 = st.mem_FreeChunksNumber c2 := by
    unfold allocStateD
    cases hr : mem_PoolsAlloc heap c st with
    | error e => exact ⟨rfl, rfl⟩
    | ok tri =>
      obtain ⟨res, st1, eff⟩ := tri
      exact mem_PoolsAlloc_frame heap c st res st1 eff hr c2 h
  have hF : (freeStateD c p st).mem_Pools c2 = st.mem_Pools c2 ∧
      (freeStateD c p st).mem_FreeChunksNumber c2 = st.mem_FreeChunksNumber c2 := by
    unfold freeStateD
    cases hr : mem_PoolsFree c p st with
    | error e => exact ⟨rfl, rfl⟩
    | ok pr =>
      obtain ⟨st1, eff⟩ := pr
      exact mem_PoolsFree_frame c p st st1 eff hr c2 h
  exact ⟨hA.1, hA.2, hF.1, hF.2⟩

/-- Witness for C10: class 1 state untouched by the class-0 scenario calls. -/
theorem cross_class_frame_witness :
    (allocStateD ⟨fun s => s, fun _ => some 1000⟩ 0
        ⟨fun _ => [], fun _ => 0, ⟨2⟩⟩).mem_Pools 1 =
      (⟨fun _ => [], fun _ => 0, ⟨2⟩⟩ : PMState).mem_Pools 1 ∧
    (allocStateD ⟨fun s => s, fun _ => some 1000⟩ 0
        ⟨fun _ => [], fun _ => 0, ⟨2⟩⟩).mem_FreeChunksNumber 1 =
      (⟨fun _ => [], fun _ => 0, ⟨2⟩⟩ : PMState).mem_FreeChunksNumber 1 ∧
    (freeStateD 0 77 ⟨fun _ => [], fun _ => 0, ⟨2⟩⟩).mem_Pools 1 =
      (⟨fun _ => [], fun _ => 0, ⟨2⟩⟩ : PMState).mem_Pools 1 ∧
    (freeStateD 0 77 ⟨fun _ => [], fun _ => 0, ⟨2⟩⟩).mem_FreeChunksNumber 1 =
      (⟨fun _ => [], fun _ => 0, ⟨2⟩⟩ : PMState).mem_FreeChunksNumber 1 :=
  cross_class_frame ⟨fun s => s, fun _ => some 1000⟩ 0 1 77
    ⟨fun _ => [], fun _ => 0, ⟨2⟩⟩ (by decide)

end Jerry
